import Mathlib

/-!
Rotary dial driver (rotary_drv.c): the decoding state machine.

A shallow embedding of `rotary_drv.c`: the interrupt handler `r_irq_handler`,
the two timer callbacks `ticks_sequence_finished` and
`sequence_sequence_finished`, the read path `device_read` with its blocking
reader, the millisecond clock `millis`, and the startup path `r_init` with
`r_int_config` and `device_config`.

Conventions of the embedding.

* The module-level statics of the driver are the fields of `State`, under
  their C names.
* `int` variables are `Int`; every `++` on one goes through `int_incr`, the
  twos-complement wrap-around of a 32-bit `int` (the kernel is built with
  `-fno-strict-overflow`).  `uint64_t` subtraction is taken modulo `2 ^ 64`,
  `unsigned long` addition modulo `2 ^ BITS_PER_LONG`.
* The output buffer is the list of the bytes of the `kmalloc`ed block.  Every
  store through `ticks_output_buffer[i]` is recorded in `State.trace`, with
  its index, whether or not the index lies inside the block, so that memory
  safety is a property of the trace.
* The memory that follows the block is the argument `beyond` of `device_read`:
  `strlen` scans up to the first NUL, inside the block or after it.
* `State.trace` is ghost state: the chronological list of the externally
  visible operations (buffer stores, timer operations, wake-ups).
* Values the handlers read from the kernel (`jiffies`, the result of
  `millis()`) are arguments.  `HZ` and `BITS_PER_LONG` come from the kernel
  headers and are the fields of `Kernel`.
* The return values of the kernel calls of the startup path, the allocator
  included, are the fields of `Startup`; the resources it acquires are recorded
  as a list of `ResOp`.
-/

namespace Rotary

/-! ## Kernel constants and machine arithmetic -/

/-- Constants of the kernel build that the driver uses: the tick rate `HZ`
and the width of `unsigned long`. -/
structure Kernel where
  HZ : Nat
  BITS_PER_LONG : Nat
deriving DecidableEq, Repr

/-- The line `#define DEBOUNCE_MILLI (70)`. -/
def DEBOUNCE_MILLI : Nat := 70

/-- The line `static unsigned long TIMEOUT_DELAY = (HZ / 2);`. -/
def TIMEOUT_DELAY (K : Kernel) : Nat := K.HZ / 2

/-- The line `static unsigned long ENBLOC_DELAY = (HZ * 3);`. -/
def ENBLOC_DELAY (K : Kernel) : Nat := K.HZ * 3

/-- The line `#define MAXIMUM_NUMBER_LEN 60`. -/
def MAXIMUM_NUMBER_LEN : Int := 60

/-- Largest value of a 32-bit `int`. -/
def INT_MAX : Int := 2147483647

/-- Reduction of an integer to the range of a 32-bit twos-complement `int`. -/
def wrap_int (x : Int) : Int := (x + 2147483648) % 4294967296 - 2147483648

/-- The C expression `x++` (new value) on an `int`. -/
def int_incr (x : Int) : Int := wrap_int (x + 1)

/-- Addition of two `unsigned long` values. -/
def ulong_add (K : Kernel) (a b : Nat) : Nat := (a + b) % 2 ^ K.BITS_PER_LONG

/-- Subtraction `a - b` of two `uint64_t` values. -/
def u64_sub (a b : Nat) : Nat := (a + 18446744073709551616 - b % 18446744073709551616) % 18446744073709551616

/-- Conversion of an `int` value to the byte stored in a `char`. -/
def to_char (v : Int) : Nat := (v % 256).toNat

/-! ## Timers -/

/-- The part of a kernel `struct timer_list` the driver depends on: whether
the timer is queued, and its expiry in jiffies.  The `function` field is
fixed per timer (`ticks_sequence_finished` for `ticks_timer`,
`sequence_sequence_finished` for `sequence_timer`) and is part of the event
semantics below. -/
structure timer_list where
  pending : Bool
  expires : Nat
deriving DecidableEq, Repr

/-- Names of the two timers of the driver. -/
inductive TimerId where
  | ticks
  | sequence
deriving DecidableEq, Repr

/-- Externally visible operations, recorded in `State.trace`.  The timer
operations record whether the timer was queued when the operation ran. -/
inductive Effect where
  | store (index : Int) (value : Nat)
  | init_timer (t : TimerId) (was_pending : Bool)
  | add_timer (t : TimerId)
  | mod_timer (t : TimerId) (was_pending : Bool)
  | del_timer (t : TimerId) (was_pending : Bool)
  | wake_up
deriving DecidableEq, Repr

/-! ## Driver state -/

/-- The statics of `rotary_drv.c` that the decoder reads and writes, plus the
ghost trace. -/
structure State where
  max_number_len : Int
  ticks_output_buffer : List Nat
  ticks_output_buffer_len : Int
  ticks_count : Int
  last_interrupt_time : Nat
  ticks_timer : timer_list
  sequence_timer : timer_list
  trace : List Effect
deriving DecidableEq, Repr

/-- The state after a successful `r_init`: the statics at their initialisers,
`max_number_len` as configured, and the buffer a fresh block `mem` whose
content `kmalloc` leaves unspecified. -/
def init_state (max_number_len : Int) (mem : List Nat) : State :=
  { max_number_len := max_number_len
    ticks_output_buffer := mem
    ticks_output_buffer_len := 0
    ticks_count := 0
    last_interrupt_time := 0
    ticks_timer := { pending := false, expires := 0 }
    sequence_timer := { pending := false, expires := 0 }
    trace := [] }

/-- Size in bytes of the block `r_init` allocates:
`(max_number_len + 4) * sizeof(char)`. -/
def alloc_size (max_number_len : Int) : Nat := (max_number_len + 4).toNat

/-- The assignment `ticks_output_buffer[i] = v`.  A store inside the block
updates it; any store is recorded in the trace. -/
def store (s : State) (i : Int) (v : Int) : State :=
  { s with
    ticks_output_buffer :=
      if 0 ≤ i then s.ticks_output_buffer.set i.toNat (to_char v) else s.ticks_output_buffer
    trace := s.trace ++ [Effect.store i (to_char v)] }

/-- The statement `ticks_output_buffer[ticks_output_buffer_len++] = v`. -/
def append_char (s : State) (v : Int) : State :=
  let s1 := store s s.ticks_output_buffer_len v
  { s1 with ticks_output_buffer_len := int_incr s1.ticks_output_buffer_len }

/-! ## The timer callbacks and the interrupt handler -/

/-- The function `sequence_sequence_finished` (lines 101-111): terminate the
buffer with a newline and a NUL, reset the length, wake the readers.  The
`printk` only reads the buffer and is left out. -/
def sequence_sequence_finished (s : State) : State :=
  let s1 := append_char s 10
  let s2 := append_char s1 0
  let s3 := { s2 with ticks_output_buffer_len := 0 }
  { s3 with trace := s3.trace ++ [Effect.wake_up] }

/-- The function `ticks_sequence_finished` (lines 113-140), run at `jiffies`. -/
def ticks_sequence_finished (K : Kernel) (jiffies : Nat) (s : State) : State :=
  let s1 :=
    if s.ticks_output_buffer_len < s.max_number_len then
      append_char s (48 + Int.tmod s.ticks_count 10)
    else s
  let s2 := { s1 with ticks_count := 0 }
  if s2.ticks_output_buffer_len ≥ s2.max_number_len then
    sequence_sequence_finished
      { s2 with
        sequence_timer := { s2.sequence_timer with pending := false }
        trace := s2.trace ++ [Effect.del_timer TimerId.sequence s2.sequence_timer.pending] }
  else if s2.ticks_output_buffer_len = 1 then
    { s2 with
      sequence_timer := { pending := true, expires := ulong_add K jiffies (ENBLOC_DELAY K) }
      trace := s2.trace ++
        [Effect.init_timer TimerId.sequence s2.sequence_timer.pending,
         Effect.add_timer TimerId.sequence] }
  else
    { s2 with
      sequence_timer := { pending := true, expires := ulong_add K jiffies (ENBLOC_DELAY K) }
      trace := s2.trace ++ [Effect.mod_timer TimerId.sequence s2.sequence_timer.pending] }

/-- The debounce test of `r_irq_handler` (line 150):
`last_interrupt_time && curr_int_time - last_interrupt_time < DEBOUNCE_MILLI`. -/
def debounced (s : State) (curr_int_time : Nat) : Bool :=
  s.last_interrupt_time != 0 &&
    decide (u64_sub curr_int_time s.last_interrupt_time < DEBOUNCE_MILLI)

/-- The function `r_irq_handler` (lines 145-172).  `curr_int_time` is the value
`millis()` returned, `jiffies` the tick counter when the handler runs. -/
def r_irq_handler (K : Kernel) (curr_int_time jiffies : Nat) (s : State) : State :=
  if debounced s curr_int_time then s
  else
    let s1 := { s with last_interrupt_time := curr_int_time }
    let s2 :=
      if s1.ticks_count = 0 then
        { s1 with
          ticks_timer := { pending := true, expires := ulong_add K jiffies (TIMEOUT_DELAY K) }
          trace := s1.trace ++
            [Effect.init_timer TimerId.ticks s1.ticks_timer.pending,
             Effect.add_timer TimerId.ticks] }
      else
        { s1 with
          ticks_timer := { pending := true, expires := ulong_add K jiffies (TIMEOUT_DELAY K) }
          trace := s1.trace ++ [Effect.mod_timer TimerId.ticks s1.ticks_timer.pending] }
    { s2 with ticks_count := int_incr s2.ticks_count }

/-! ## Events and runs -/

/-- What can happen to the decoder: a rising edge on the GPIO line (with the
value `millis()` returns and the tick counter at that moment), the expiry of
the digit timer `ticks_timer`, the expiry of `sequence_timer`. -/
inductive Event where
  | edge (curr_int_time jiffies : Nat)
  | ticks_expiry (jiffies : Nat)
  | sequence_expiry
deriving DecidableEq, Repr

/-- One event.  The kernel runs the callback of a timer only when the timer is
queued, and dequeues it before the call; an expiry of a timer that is not
queued does not happen and leaves the state as it is. -/
def step (K : Kernel) (s : State) : Event → State
  | Event.edge curr_int_time jiffies => r_irq_handler K curr_int_time jiffies s
  | Event.ticks_expiry jiffies =>
      if s.ticks_timer.pending then
        ticks_sequence_finished K jiffies
          { s with ticks_timer := { s.ticks_timer with pending := false } }
      else s
  | Event.sequence_expiry =>
      if s.sequence_timer.pending then
        sequence_sequence_finished
          { s with sequence_timer := { s.sequence_timer with pending := false } }
      else s

/-- A finite sequence of events, applied in order. -/
def run (K : Kernel) (s : State) (evs : List Event) : State :=
  evs.foldl (step K) s

/-- Whether every edge of a list of edges, given as pairs of the `millis()`
value and the tick counter, passes the debounce test in the state it meets. -/
def all_accepted (K : Kernel) : State → List (Nat × Nat) → Bool
  | _, [] => true
  | s, (t, j) :: es => !debounced s t && all_accepted K (r_irq_handler K t j s) es

/-- The edge events of a list of pairs of `millis()` value and tick counter. -/
def edges (es : List (Nat × Nat)) : List Event :=
  es.map (fun e => Event.edge e.1 e.2)

/-- The buffer stores recorded in a trace, in order, as pairs of index and
byte. -/
def stores : List Effect → List (Int × Nat)
  | [] => []
  | Effect.store i v :: tr => (i, v) :: stores tr
  | _ :: tr => stores tr

/-- The number of `wake_up_interruptible` calls recorded in a trace: the
publications. -/
def wakeups : List Effect → Nat
  | [] => 0
  | Effect.wake_up :: tr => wakeups tr + 1
  | _ :: tr => wakeups tr

/-- Whether a recorded timer operation was legitimate: `init_timer` (the fresh
arm, followed by `add_timer`) on a timer that was not queued, `mod_timer` on
one that was. -/
def arm_ok : Effect → Bool
  | Effect.init_timer _ was_pending => !was_pending
  | Effect.mod_timer _ was_pending => was_pending
  | _ => true

/-- A train of `n` edges 100 ms apart on a kernel with `HZ = 100`: edge number
`k + 1`, ..., `k + n`, edge `i` at `millis() = 100 * i` (as the 32-bit value
`millis` returns) and at tick `10 * i` (as a 32-bit `unsigned long`). -/
def train : Nat → Nat → List (Nat × Nat)
  | _, 0 => []
  | k, n + 1 => ((100 * (k + 1)) % 4294967296, (10 * (k + 1)) % 4294967296) :: train (k + 1) n

/-- A kernel build with `HZ = 100` and 32-bit `unsigned long`. -/
def kernel_100 : Kernel := { HZ := 100, BITS_PER_LONG := 32 }

/-- A kernel build with `HZ = 1000` and 32-bit `unsigned long`. -/
def kernel_1000 : Kernel := { HZ := 1000, BITS_PER_LONG := 32 }

/-- A zero-filled block of the size `r_init` allocates. -/
def zero_mem (max_number_len : Int) : List Nat :=
  List.replicate (alloc_size max_number_len) 0

/-- The value of `ticks_count` at each digit-timer expiry of a run that takes
place (the timer is queued), in order: the pulse counts of the digits. -/
def digit_counts (K : Kernel) : State → List Event → List Int
  | _, [] => []
  | s, Event.ticks_expiry jiffies :: evs =>
      (if s.ticks_timer.pending then [s.ticks_count] else []) ++
        digit_counts K (step K s (Event.ticks_expiry jiffies)) evs
  | s, e :: evs => digit_counts K (step K s e) evs

/-- Whether `ticks_count` stays inside the range of `int` along a run: every
edge that passes the debounce test meets `ticks_count < INT_MAX`. -/
def no_overflow (K : Kernel) : State → List Event → Bool
  | _, [] => true
  | s, Event.edge t j :: evs =>
      (debounced s t || decide (s.ticks_count < INT_MAX)) &&
        no_overflow K (step K s (Event.edge t j)) evs
  | s, e :: evs => no_overflow K (step K s e) evs

/-- Whether an event is an edge. -/
def Event.is_edge : Event → Bool
  | Event.edge _ _ => true
  | _ => false

/-- Whether an event is an expiry of the sequence timer. -/
def Event.is_sequence_expiry : Event → Bool
  | Event.sequence_expiry => true
  | _ => false

/-! ## The read path -/

/-- The errno value `EFAULT`. -/
def EFAULT : Int := 14

/-- The C function `strlen`, applied to the bytes of memory from the pointer
on: the number of bytes before the first NUL.  The list holds the memory as
far as the scan can go: where it holds no NUL, a NUL follows its last byte. -/
def strlen (mem : List Nat) : Nat := (mem.takeWhile (fun b => b != 0)).length

/-- Outcome of a `device_read`: the decoder state afterwards, the return
value, and the bytes that reached the caller. -/
structure ReadResult where
  state : State
  ret : Int
  user : List Nat
deriving DecidableEq, Repr

/-- Conversion of an `int` value to `unsigned int`. -/
def uint_of_int (v : Int) : Nat := (v % 4294967296).toNat

/-- Conversion of an `unsigned int` value to `ssize_t`, the return type of
`device_read`: `ssize_t` is the 64-bit `long` on a build with
`BITS_PER_LONG = 64`, where every `unsigned int` value is kept, and the 32-bit
`int` otherwise, where the value is reduced to the range of `int`. -/
def ssize_of_uint (K : Kernel) (v : Nat) : Int :=
  if K.BITS_PER_LONG = 64 then (v : Int) else wrap_int v

/-- The function `device_read` (lines 219-226), from the point where
`interruptible_sleep_on` has returned.  `not_copied` is the result of
`copy_to_user`, the number of bytes it could not copy.  `beyond` is the
memory that follows the block of `ticks_output_buffer`, up to the first NUL in
it: `strlen` does not stop at the end of the block, so when the block holds no
NUL the scan, and then the copy, go on into these bytes.  The arguments
`length` and `offset` of the C function are not used by it.  In
`return (copy_to_user (...)) ? -EFAULT : len;` the variable `len` is an
`unsigned int`, so the conditional expression has type `unsigned int` and
`-EFAULT` is converted to it before the conversion to `ssize_t`. -/
def device_read (K : Kernel) (s : State) (beyond : List Nat) (not_copied : Nat) : ReadResult :=
  let len := strlen (s.ticks_output_buffer ++ beyond) % 4294967296
  { state := s
    ret := ssize_of_uint K (if not_copied ≠ 0 then uint_of_int (-EFAULT) else len)
    user := (s.ticks_output_buffer ++ beyond).take (len - not_copied) }

/-! ## Timed runs

Time is counted in ticks from boot (`now`, not reduced); the handlers see
`jiffies = now % 2 ^ BITS_PER_LONG`.  A queued timer expires at the first tick
whose reduced value is its `expires` field. -/

/-- Ticks from `now` until a timer with the given expiry fires. -/
def due_in (K : Kernel) (now : Nat) (t : timer_list) : Nat :=
  (t.expires + 2 ^ K.BITS_PER_LONG - now % 2 ^ K.BITS_PER_LONG) % 2 ^ K.BITS_PER_LONG

/-- The queued timer that expires first after `now`, with its tick; the digit
timer first on a tie. -/
def next_timer (K : Kernel) (now : Nat) (s : State) : Option (TimerId × Nat) :=
  match s.ticks_timer.pending, s.sequence_timer.pending with
  | false, false => none
  | true, false => some (TimerId.ticks, now + due_in K now s.ticks_timer)
  | false, true => some (TimerId.sequence, now + due_in K now s.sequence_timer)
  | true, true =>
      if due_in K now s.ticks_timer ≤ due_in K now s.sequence_timer then
        some (TimerId.ticks, now + due_in K now s.ticks_timer)
      else some (TimerId.sequence, now + due_in K now s.sequence_timer)

/-- The expiry event of a timer at tick `tick`. -/
def expiry_event (K : Kernel) (tick : Nat) : TimerId → Event
  | TimerId.ticks => Event.ticks_expiry (tick % 2 ^ K.BITS_PER_LONG)
  | TimerId.sequence => Event.sequence_expiry

/-- Let time pass from `now` to `target`: every timer fires at its expiry, in
order of expiry.  Returns the state and the expiries that took place, each
with its tick.  `fuel` bounds the number of expiries. -/
def fire_due (K : Kernel) : Nat → Nat → Nat → State → State × List (Nat × TimerId)
  | 0, _, _, s => (s, [])
  | fuel + 1, now, target, s =>
      match next_timer K now s with
      | none => (s, [])
      | some (t, tick) =>
          if tick ≤ target then
            let r := fire_due K fuel tick target (step K s (expiry_event K tick t))
            (r.1, (tick, t) :: r.2)
          else (s, [])

/-- A decoder with its clock: the tick counter, the state, and the timer
expiries so far with their ticks. -/
structure Timed where
  now : Nat
  state : State
  fired : List (Nat × TimerId)
deriving DecidableEq, Repr

/-- The tick at `t` milliseconds of the `millis()` clock, when that clock
started at tick `J0`. -/
def tick_of_ms (K : Kernel) (J0 t : Nat) : Nat := J0 + t * K.HZ / 1000

/-- Let time pass until tick `target`. -/
def Timed.wait (K : Kernel) (T : Timed) (target : Nat) : Timed :=
  let r := fire_due K 4 T.now target T.state
  { now := target, state := r.1, fired := T.fired ++ r.2 }

/-- An edge at `t` milliseconds: the timers due by then fire, then the
interrupt handler runs with `millis() = t` (as a 32-bit value). -/
def Timed.edge_at (K : Kernel) (J0 : Nat) (T : Timed) (t : Nat) : Timed :=
  let T1 := T.wait K (tick_of_ms K J0 t)
  { T1 with
    state := r_irq_handler K (t % 4294967296) (T1.now % 2 ^ K.BITS_PER_LONG) T1.state }

/-- A timed run: edges at the given milliseconds, then silence until
`end_ms`. -/
def timed_run (K : Kernel) (J0 : Nat) (s : State) (edge_ms : List Nat) (end_ms : Nat) : Timed :=
  (edge_ms.foldl (Timed.edge_at K J0) { now := J0, state := s, fired := [] }).wait K
    (tick_of_ms K J0 end_ms)

/-- A kernel build with `HZ = 100` and 64-bit `unsigned long`. -/
def kernel_64 : Kernel := { HZ := 100, BITS_PER_LONG := 64 }

/-! ## Blocking reads

The reader process of `device_read`.  `interruptible_sleep_on` puts the caller
to sleep unconditionally; it returns at the next `wake_up_interruptible` on
`ticks_wait_queue`, or when a signal is delivered to the process. -/

/-- The decoder together with one reader process: `reader` is `some n` while
the process sleeps inside `device_read` (`n` is what `copy_to_user` will
report when the read goes on), and `returned` lists the reads completed so
far. -/
structure Sys where
  state : State
  reader : Option Nat
  returned : List ReadResult
deriving DecidableEq, Repr

/-- What can happen to the decoder and its reader: a decoder event, a call of
`read` by the process (with the outcome its transfer will have), a signal for
the process. -/
inductive Action where
  | decoder (e : Event)
  | read_call (not_copied : Nat)
  | signal
deriving DecidableEq, Repr

/-- One action.  A decoder event that runs `wake_up_interruptible` wakes the
sleeping reader, which goes on with `device_read` on the state the event
leaves; a signal wakes it on the current state; a call of `read` puts the
process to sleep.  `beyond` is the memory that follows the block, as
`device_read` takes it. -/
def sys_step (K : Kernel) (beyond : List Nat) (y : Sys) : Action → Sys
  | Action.decoder e =>
      let s1 := step K y.state e
      if wakeups s1.trace ≠ wakeups y.state.trace then
        match y.reader with
        | some n =>
            { state := s1, reader := none,
              returned := y.returned ++ [device_read K s1 beyond n] }
        | none => { y with state := s1 }
      else { y with state := s1 }
  | Action.read_call n =>
      match y.reader with
      | none => { y with reader := some n }
      | some _ => y
  | Action.signal =>
      match y.reader with
      | some n =>
          { y with reader := none, returned := y.returned ++ [device_read K y.state beyond n] }
      | none => y

/-- A finite sequence of actions, applied in order. -/
def sys_run (K : Kernel) (beyond : List Nat) (y : Sys) (acts : List Action) : Sys :=
  acts.foldl (sys_step K beyond) y

/-- The decoder events of a list, as actions. -/
def decoder_actions (evs : List Event) : List Action :=
  evs.map Action.decoder

/-! ## The millisecond clock -/

/-- The function `millis` (lines 88-99).  `clock` is the value `sched_clock()`
returns, in nanoseconds; `epochMilli` is the static local variable.  Returns
the value of `millis()` and the new value of `epochMilli`. -/
def millis (clock epochMilli : Nat) : Nat × Nat :=
  let now := (clock % 18446744073709551616) / 1000000
  let epoch := if epochMilli = 0 then now else epochMilli
  (u64_sub now epoch % 4294967296, epoch)

/-- Successive calls of `millis` with the given `sched_clock()` readings,
starting with the given `epochMilli`: the values returned. -/
def millis_calls : List Nat → Nat → List Nat
  | [], _ => []
  | c :: cs, epochMilli => (millis c epochMilli).1 :: millis_calls cs (millis c epochMilli).2

/-! ## Startup -/

/-- The initialiser of the module parameter: `static int max_number_len = 20;`. -/
def default_max_number_len : Int := 20

/-- What the kernel answers to the calls of the startup path: the reading of
`sched_clock()`, the return values of `gpio_request`, `gpio_to_irq`,
`request_irq` and `register_chrdev`, and the allocator `kmalloc`, which maps
the size requested to the block returned, if any. -/
structure Startup where
  sched_clock : Nat
  gpio_request : Int
  gpio_to_irq : Int
  request_irq : Int
  register_chrdev : Int
  kmalloc : Nat → Option (List Nat)

/-- The resources the startup path acquires. -/
inductive Resource where
  | gpio_line
  | irq_handler
  | chrdev
  | buffer
deriving DecidableEq, Repr

/-- Acquisition or release of a resource. -/
inductive ResOp where
  | acquire (r : Resource)
  | release (r : Resource)
deriving DecidableEq, Repr

/-- The resources held after a sequence of acquisitions and releases, in order
of acquisition. -/
def held (ops : List ResOp) : List Resource :=
  ops.foldl
    (fun h op =>
      match op with
      | ResOp.acquire r => h ++ [r]
      | ResOp.release r => h.erase r)
    []

/-- Conversion of an `int` value to `short int`, the type of `irq_any_gpio`. -/
def to_short (v : Int) : Int := (v + 32768) % 65536 - 32768

/-- Conversion of an `int` value to `size_t`. -/
def size_t_of (K : Kernel) (v : Int) : Nat := (v % 2 ^ K.BITS_PER_LONG).toNat

/-- The function `r_int_config` (lines 177-200): its result, the value left in
`irq_any_gpio`, and the resources acquired.  A failure of `gpio_request` is
only logged. -/
def r_int_config (E : Startup) : Bool × Int × List ResOp :=
  let ops1 := if E.gpio_request ≠ 0 then [] else [ResOp.acquire Resource.gpio_line]
  let irq_any_gpio := to_short E.gpio_to_irq
  if irq_any_gpio < 0 then (false, irq_any_gpio, ops1)
  else if E.request_irq ≠ 0 then (false, irq_any_gpio, ops1)
  else (true, irq_any_gpio, ops1 ++ [ResOp.acquire Resource.irq_handler])

/-- The function `device_config` (lines 234-244): its return value, the value
left in `major`, and the resources acquired. -/
def device_config (E : Startup) : Int × Int × List ResOp :=
  let major := E.register_chrdev
  if major < 0 then (major, major, [])
  else (0, major, [ResOp.acquire Resource.chrdev])

/-- Outcome of `r_init`: the return value, the value left in `max_number_len`,
the size requested from `kmalloc` (if the call was reached), the decoder state
in service (if `r_init` returned 0), the value left in `epochMilli`, and the
acquisitions and releases performed. -/
structure InitResult where
  ret : Int
  max_number_len : Int
  request : Option Nat
  state : Option State
  epochMilli : Nat
  ops : List ResOp

/-- The function `r_init` (lines 255-279), with `max_number_len` holding the
configured value `c` (20 when the module parameter is not given). -/
def r_init (K : Kernel) (c : Int) (E : Startup) : InitResult :=
  let epochMilli := (millis E.sched_clock 0).2
  let ic := r_int_config E
  if ic.1 then
    let dc := device_config E
    if dc.1 ≥ 0 then
      let m := if c > MAXIMUM_NUMBER_LEN then MAXIMUM_NUMBER_LEN else c
      let request := size_t_of K (wrap_int (m + 4)) * 1
      match E.kmalloc request with
      | some mem =>
          { ret := 0, max_number_len := m, request := some request,
            state := some (init_state m mem), epochMilli := epochMilli,
            ops := ic.2.2 ++ dc.2.2 ++ [ResOp.acquire Resource.buffer] }
      | none =>
          { ret := -1, max_number_len := m, request := some request, state := none,
            epochMilli := epochMilli, ops := ic.2.2 ++ dc.2.2 }
    else
      { ret := -1, max_number_len := c, request := none, state := none,
        epochMilli := epochMilli, ops := ic.2.2 ++ dc.2.2 }
  else
    { ret := -1, max_number_len := c, request := none, state := none,
      epochMilli := epochMilli, ops := ic.2.2 }

/-- The function `r_cleanup` (lines 281-287), the module exit path:
`r_int_release` (`free_irq`, `gpio_free`), `device_release`
(`unregister_chrdev`) and `kfree`. -/
def r_cleanup : List ResOp :=
  [ResOp.release Resource.irq_handler, ResOp.release Resource.gpio_line,
   ResOp.release Resource.chrdev, ResOp.release Resource.buffer]

/-- An allocator that serves requests of up to 4 MiB with a zero-filled block
and refuses larger ones. -/
def kmalloc_zero (n : Nat) : Option (List Nat) :=
  if n ≤ 4194304 then some (List.replicate n 0) else none

/-- An allocator returns blocks of the size requested and never a block of
half the address space or more. -/
def kmalloc_sound (K : Kernel) (kmalloc : Nat → Option (List Nat)) : Prop :=
  ∀ n mem, kmalloc n = some mem → mem.length = n ∧ 2 * n < 2 ^ K.BITS_PER_LONG

/-- A startup in which every kernel call succeeds, at 5 s on the scheduler
clock. -/
def startup_ok : Startup :=
  { sched_clock := 5000000000, gpio_request := 0, gpio_to_irq := 170, request_irq := 0,
    register_chrdev := 250, kmalloc := kmalloc_zero }

/-! ## Lemmas and theorems -/

/-- The stores of a concatenated trace. -/
theorem stores_append (a b : List Effect) : stores (a ++ b) = stores a ++ stores b := by
  induction a with
  | nil => rfl
  | cons e tr ih => cases e <;> simp [stores, ih]

/-- Inside the range of `int` and below `INT_MAX`, `x++` adds 1. -/
theorem int_incr_of_range (x : Int) (h0 : -2147483648 ≤ x) (h1 : x < 2147483647) :
    int_incr x = x + 1 := by
  unfold int_incr wrap_int
  omega

/-- The digit callback when the digit fits and leaves room: one store, the
sequence timer armed or re-armed. -/
theorem ticks_sequence_finished_room (K : Kernel) (jf : Nat) (s : State)
    (h0 : 0 ≤ s.ticks_output_buffer_len)
    (h1 : s.ticks_output_buffer_len + 1 < s.max_number_len)
    (hmax : s.max_number_len ≤ INT_MAX) :
    (ticks_sequence_finished K jf s).ticks_count = 0 ∧
    (ticks_sequence_finished K jf s).ticks_timer = s.ticks_timer ∧
    (ticks_sequence_finished K jf s).max_number_len = s.max_number_len ∧
    (ticks_sequence_finished K jf s).last_interrupt_time = s.last_interrupt_time ∧
    (ticks_sequence_finished K jf s).ticks_output_buffer_len = s.ticks_output_buffer_len + 1 ∧
    (ticks_sequence_finished K jf s).ticks_output_buffer =
      s.ticks_output_buffer.set s.ticks_output_buffer_len.toNat
        (to_char (48 + Int.tmod s.ticks_count 10)) ∧
    (ticks_sequence_finished K jf s).sequence_timer =
      { pending := true, expires := ulong_add K jf (ENBLOC_DELAY K) } ∧
    stores (ticks_sequence_finished K jf s).trace =
      stores s.trace ++ [(s.ticks_output_buffer_len, to_char (48 + Int.tmod s.ticks_count 10))] := by
  have hlt : s.ticks_output_buffer_len < s.max_number_len := by omega
  have hinc : int_incr s.ticks_output_buffer_len = s.ticks_output_buffer_len + 1 :=
    int_incr_of_range _ (by omega) (by unfold INT_MAX at hmax; omega)
  unfold ticks_sequence_finished
  simp only [hlt, if_true, append_char, store, hinc, h0]
  have hge : ¬ (s.ticks_output_buffer_len + 1 ≥ s.max_number_len) := by omega
  simp only [hge, if_false]
  by_cases hone : s.ticks_output_buffer_len + 1 = 1 <;>
    simp [hone, stores_append, stores]

/-- The digit callback when the digit fills the buffer: the digit, then the
forced publication. -/
theorem ticks_sequence_finished_fill (K : Kernel) (jf : Nat) (s : State)
    (h0 : 0 ≤ s.ticks_output_buffer_len)
    (h1 : s.ticks_output_buffer_len + 1 = s.max_number_len)
    (hmax : s.max_number_len < INT_MAX) :
    (ticks_sequence_finished K jf s).ticks_count = 0 ∧
    (ticks_sequence_finished K jf s).ticks_timer = s.ticks_timer ∧
    (ticks_sequence_finished K jf s).max_number_len = s.max_number_len ∧
    (ticks_sequence_finished K jf s).last_interrupt_time = s.last_interrupt_time ∧
    (ticks_sequence_finished K jf s).ticks_output_buffer_len = 0 ∧
    (ticks_sequence_finished K jf s).ticks_output_buffer =
      ((s.ticks_output_buffer.set s.ticks_output_buffer_len.toNat
        (to_char (48 + Int.tmod s.ticks_count 10))).set
          (s.ticks_output_buffer_len + 1).toNat 10).set
            (s.ticks_output_buffer_len + 2).toNat 0 ∧
    (ticks_sequence_finished K jf s).sequence_timer =
      { pending := false, expires := s.sequence_timer.expires } ∧
    stores (ticks_sequence_finished K jf s).trace =
      stores s.trace ++ [(s.ticks_output_buffer_len, to_char (48 + Int.tmod s.ticks_count 10)),
        (s.ticks_output_buffer_len + 1, 10), (s.ticks_output_buffer_len + 2, 0)] := by
  have hlt : s.ticks_output_buffer_len < s.max_number_len := by omega
  have hinc : int_incr s.ticks_output_buffer_len = s.ticks_output_buffer_len + 1 :=
    int_incr_of_range _ (by omega) (by unfold INT_MAX at hmax; omega)
  have hinc2 : int_incr (s.ticks_output_buffer_len + 1) = s.ticks_output_buffer_len + 2 := by
    rw [int_incr_of_range _ (by omega) (by unfold INT_MAX at hmax; omega)]; omega
  unfold ticks_sequence_finished
  simp only [hlt, if_true, append_char, store, hinc, h0]
  have hge : s.ticks_output_buffer_len + 1 ≥ s.max_number_len := by omega
  have h01 : 0 ≤ s.ticks_output_buffer_len + 1 := by omega
  have h02 : 0 ≤ s.ticks_output_buffer_len + 2 := by omega
  simp only [hge, if_true, sequence_sequence_finished, append_char, store, hinc, hinc2, h01, h02]
  simp [stores_append, stores, to_char]

/-- For a count that is a natural number the stored character is `'0' + n % 10`. -/
theorem digit_char (n : Nat) : to_char (48 + Int.tmod (n : Int) 10) = 48 + n % 10 := by
  unfold to_char
  have h : Int.tmod (n : Int) 10 = ((n % 10 : Nat) : Int) := by
    rw [Int.tmod_eq_emod (by omega) (by omega)]
    omega
  rw [h]
  omega

/-- Fields of the state after an edge that passes the debounce test. -/
theorem r_irq_handler_accepted (K : Kernel) (t j : Nat) (s : State)
    (h : debounced s t = false) :
    (r_irq_handler K t j s).last_interrupt_time = t ∧
    (r_irq_handler K t j s).ticks_count = int_incr s.ticks_count ∧
    (r_irq_handler K t j s).ticks_timer =
      { pending := true, expires := ulong_add K j (TIMEOUT_DELAY K) } ∧
    (r_irq_handler K t j s).ticks_output_buffer = s.ticks_output_buffer ∧
    (r_irq_handler K t j s).ticks_output_buffer_len = s.ticks_output_buffer_len ∧
    (r_irq_handler K t j s).max_number_len = s.max_number_len ∧
    (r_irq_handler K t j s).sequence_timer = s.sequence_timer ∧
    stores (r_irq_handler K t j s).trace = stores s.trace := by
  unfold r_irq_handler
  simp only [h, Bool.false_eq_true, if_false]
  by_cases hc : s.ticks_count = 0 <;> simp [hc, stores_append, stores]

/-- A run starts with its first event. -/
theorem run_cons (K : Kernel) (s : State) (e : Event) (evs : List Event) :
    run K s (e :: evs) = run K (step K s e) evs := rfl

/-- A run of a concatenation is the run of the second part after the first. -/
theorem run_append (K : Kernel) (s : State) (a b : List Event) :
    run K s (a ++ b) = run K (run K s a) b := by
  simp [run, List.foldl_append]

/-- A run of accepted edges counts them (modulo the width of `int`), leaves
the digit timer queued and touches neither the buffer nor the sequence timer. -/
theorem run_edges_accepted (K : Kernel) (es : List (Nat × Nat)) :
    ∀ s : State, wrap_int s.ticks_count = s.ticks_count → all_accepted K s es = true →
      (run K s (edges es)).ticks_count = wrap_int (s.ticks_count + es.length) ∧
      (es ≠ [] → (run K s (edges es)).ticks_timer.pending = true) ∧
      (run K s (edges es)).ticks_output_buffer = s.ticks_output_buffer ∧
      (run K s (edges es)).ticks_output_buffer_len = s.ticks_output_buffer_len ∧
      (run K s (edges es)).max_number_len = s.max_number_len ∧
      (run K s (edges es)).sequence_timer = s.sequence_timer ∧
      stores (run K s (edges es)).trace = stores s.trace := by
  induction es with
  | nil => intro s hr _; simp [edges, run, hr]
  | cons e es ih =>
    intro s hr h
    obtain ⟨t, j⟩ := e
    simp only [all_accepted, Bool.and_eq_true, Bool.not_eq_true'] at h
    obtain ⟨hd, hrest⟩ := h
    have hs := r_irq_handler_accepted K t j s hd
    have ht := ih (r_irq_handler K t j s) (by rw [hs.2.1]; unfold int_incr wrap_int; omega) hrest
    have hrun : run K s (edges ((t, j) :: es)) = run K (r_irq_handler K t j s) (edges es) := rfl
    rw [hrun]
    obtain ⟨h1, h2, h3, h4, h5, h6, h7⟩ := ht
    obtain ⟨-, g2, g3, g4, g5, g6, g7, g8⟩ := hs
    refine ⟨?_, ?_, by rw [h3, g4], by rw [h4, g5], by rw [h5, g6], by rw [h6, g7], by rw [h7, g8]⟩
    · rw [h1, g2]
      unfold int_incr wrap_int
      simp only [List.length_cons]
      push_cast
      omega
    · intro _
      by_cases hes : es = []
      · subst hes
        simp [edges, run, g3]
      · exact h2 hes

/-- Every edge of a train that starts where the previous edge left
`last_interrupt_time` passes the debounce test. -/
theorem train_accepted (K : Kernel) (n : Nat) :
    ∀ (k : Nat) (s : State), s.last_interrupt_time = (100 * k) % 4294967296 →
      all_accepted K s (train k n) = true := by
  induction n with
  | zero => intro k s _; rfl
  | succ n ih =>
    intro k s hl
    have hd : debounced s ((100 * (k + 1)) % 4294967296) = false := by
      unfold debounced u64_sub DEBOUNCE_MILLI
      rw [hl]
      by_cases h0 : (100 * k) % 4294967296 = 0
      · simp [h0]
      · simp only [Bool.and_eq_false_imp, bne_iff_ne, ne_eq, decide_eq_false_iff_not]
        intro _
        omega
    simp only [train, all_accepted, hd, Bool.not_false, Bool.true_and]
    exact ih (k + 1) _ (r_irq_handler_accepted K _ _ s hd).1

/-- A train of `n` edges has `n` edges. -/
theorem train_length (n : Nat) : ∀ k, (train k n).length = n := by
  induction n with
  | zero => intro k; rfl
  | succ n ih => intro k; simp [train, ih]

/-- An expiry of the queued digit timer dequeues it and runs the callback. -/
theorem step_ticks_expiry_pending (K : Kernel) (jf : Nat) (s : State)
    (h : s.ticks_timer.pending = true) :
    step K s (Event.ticks_expiry jf) =
      ticks_sequence_finished K jf
        { s with ticks_timer := { s.ticks_timer with pending := false } } := by
  simp [step, h]

/-- C1 (amended): from `ticks_count = 0` with room in the buffer, `N` accepted
edges with `1 ≤ N < 2 ^ 31` and no expiry in between leave the digit timer queued
with `ticks_count = N`; its expiry then runs `ticks_sequence_finished` once (the
timer is not queued afterwards, so a further expiry does nothing), which
stores the single digit character `'0' + N % 10` at the old buffer length and
resets `ticks_count`; no other byte is stored unless this digit fills the
buffer, in which case the forced publication adds the newline and the NUL. -/
theorem pulses_then_expiry_digit (K : Kernel) (s : State) (es : List (Nat × Nat)) (jf : Nat)
    (hcount : s.ticks_count = 0)
    (hlen : 0 ≤ s.ticks_output_buffer_len)
    (hroom : s.ticks_output_buffer_len < s.max_number_len)
    (hmax : s.max_number_len < INT_MAX)
    (hN1 : 1 ≤ es.length) (hN2 : es.length < 2147483648)
    (hacc : all_accepted K s es = true) :
    (run K s (edges es)).ticks_timer.pending = true ∧
    (run K s (edges es)).ticks_count = es.length ∧
    (run K s (edges es ++ [Event.ticks_expiry jf])).ticks_count = 0 ∧
    (run K s (edges es ++ [Event.ticks_expiry jf])).ticks_timer.pending = false ∧
    (∀ jf2, step K (run K s (edges es ++ [Event.ticks_expiry jf])) (Event.ticks_expiry jf2) =
      run K s (edges es ++ [Event.ticks_expiry jf])) ∧
    stores (run K s (edges es ++ [Event.ticks_expiry jf])).trace =
      stores s.trace ++ (s.ticks_output_buffer_len, 48 + es.length % 10) ::
        (if s.ticks_output_buffer_len + 1 < s.max_number_len then []
         else [(s.ticks_output_buffer_len + 1, 10), (s.ticks_output_buffer_len + 2, 0)]) ∧
    (run K s (edges es ++ [Event.ticks_expiry jf])).ticks_output_buffer =
      (if s.ticks_output_buffer_len + 1 < s.max_number_len then
        s.ticks_output_buffer.set s.ticks_output_buffer_len.toNat (48 + es.length % 10)
       else
        ((s.ticks_output_buffer.set s.ticks_output_buffer_len.toNat (48 + es.length % 10)).set
          (s.ticks_output_buffer_len + 1).toNat 10).set (s.ticks_output_buffer_len + 2).toNat 0) := by
  have hne : es ≠ [] := by
    intro h; rw [h] at hN1; simp at hN1
  obtain ⟨e1, e2, e3, e4, e5, e6, e7⟩ :=
    run_edges_accepted K es s (by rw [hcount]; rfl) hacc
  have hp := e2 hne
  have hc : (run K s (edges es)).ticks_count = (es.length : Int) := by
    rw [e1, hcount]
    unfold wrap_int
    omega
  have hrun : run K s (edges es ++ [Event.ticks_expiry jf]) =
      ticks_sequence_finished K jf
        { run K s (edges es) with
          ticks_timer := { (run K s (edges es)).ticks_timer with pending := false } } := by
    rw [run_append]
    show step K (run K s (edges es)) (Event.ticks_expiry jf) = _
    exact step_ticks_expiry_pending K jf _ hp
  refine ⟨hp, hc, ?_⟩
  rw [hrun]
  have a3 : ({ run K s (edges es) with
      ticks_timer := { (run K s (edges es)).ticks_timer with pending := false } } : State).ticks_output_buffer
      = s.ticks_output_buffer := e3
  have a4 : ({ run K s (edges es) with
      ticks_timer := { (run K s (edges es)).ticks_timer with pending := false } } : State).ticks_output_buffer_len
      = s.ticks_output_buffer_len := e4
  have a5 : ({ run K s (edges es) with
      ticks_timer := { (run K s (edges es)).ticks_timer with pending := false } } : State).max_number_len
      = s.max_number_len := e5
  have a7 : stores ({ run K s (edges es) with
      ticks_timer := { (run K s (edges es)).ticks_timer with pending := false } } : State).trace
      = stores s.trace := e7
  have ac : ({ run K s (edges es) with
      ticks_timer := { (run K s (edges es)).ticks_timer with pending := false } } : State).ticks_count
      = (es.length : Int) := hc
  have ap : ({ run K s (edges es) with
      ticks_timer := { (run K s (edges es)).ticks_timer with pending := false } } : State).ticks_timer.pending
      = false := rfl
  generalize ({ run K s (edges es) with
      ticks_timer := { (run K s (edges es)).ticks_timer with pending := false } } : State) = s1
      at a3 a4 a5 a7 ac ap ⊢
  by_cases hfill : s.ticks_output_buffer_len + 1 < s.max_number_len
  · obtain ⟨f1, f2, -, -, -, f6, -, f8⟩ :=
      ticks_sequence_finished_room K jf s1
        (by rw [a4]; exact hlen) (by rw [a4, a5]; exact hfill) (by rw [a5]; exact le_of_lt hmax)
    rw [a3, a4, ac, digit_char] at f6
    rw [a7, a4, ac, digit_char] at f8
    refine ⟨f1, by rw [f2, ap], ?_, ?_, ?_⟩
    · intro jf2
      simp [step, f2, ap]
    · rw [f8, if_pos hfill]
    · rw [f6, if_pos hfill]
  · obtain ⟨f1, f2, -, -, -, f6, -, f8⟩ :=
      ticks_sequence_finished_fill K jf s1
        (by rw [a4]; exact hlen) (by rw [a4, a5]; omega) (by rw [a5]; exact hmax)
    rw [a3, a4, ac, digit_char] at f6
    rw [a7, a4, ac, digit_char] at f8
    refine ⟨f1, by rw [f2, ap], ?_, ?_, ?_⟩
    · intro jf2
      simp [step, f2, ap]
    · rw [f8, if_neg hfill]
    · rw [f6, if_neg hfill]

/-- Witness for C1: ten accepted pulses from the initial state, then the expiry:
the one byte stored is `'0'` (48), at index 0. -/
theorem pulses_then_expiry_digit_witness :
    all_accepted kernel_100 (init_state 20 (zero_mem 20)) (train 0 10) = true ∧
    (run kernel_100 (init_state 20 (zero_mem 20))
      (edges (train 0 10) ++ [Event.ticks_expiry 150])).ticks_count = 0 ∧
    stores (run kernel_100 (init_state 20 (zero_mem 20))
      (edges (train 0 10) ++ [Event.ticks_expiry 150])).trace = [(0, 48)] :=
  have h := pulses_then_expiry_digit kernel_100 (init_state 20 (zero_mem 20)) (train 0 10) 150
    (by decide) (by decide) (by decide) (by decide) (by decide) (by decide) (by decide)
  ⟨by decide, h.2.2.1, h.2.2.2.2.2.1⟩

/-- The byte a digit expiry stores after any number of accepted pulses, when
the digit leaves room in the buffer: the digit of the wrapped counter. -/
theorem pulses_then_expiry_store (K : Kernel) (s : State) (es : List (Nat × Nat)) (jf : Nat)
    (hcount : s.ticks_count = 0)
    (hlen : 0 ≤ s.ticks_output_buffer_len)
    (hroom : s.ticks_output_buffer_len + 1 < s.max_number_len)
    (hmax : s.max_number_len ≤ INT_MAX)
    (hne : es ≠ [])
    (hacc : all_accepted K s es = true) :
    stores (run K s (edges es ++ [Event.ticks_expiry jf])).trace =
      stores s.trace ++
        [(s.ticks_output_buffer_len, to_char (48 + Int.tmod (wrap_int es.length) 10))] := by
  obtain ⟨e1, e2, e3, e4, e5, e6, e7⟩ :=
    run_edges_accepted K es s (by rw [hcount]; rfl) hacc
  have hp := e2 hne
  rw [hcount, Int.zero_add] at e1
  rw [run_append]
  show stores (step K _ (Event.ticks_expiry jf)).trace = _
  rw [step_ticks_expiry_pending _ _ _ hp]
  have a4 : ({ run K s (edges es) with
      ticks_timer := { (run K s (edges es)).ticks_timer with pending := false } } : State).ticks_output_buffer_len
      = s.ticks_output_buffer_len := e4
  have a5 : ({ run K s (edges es) with
      ticks_timer := { (run K s (edges es)).ticks_timer with pending := false } } : State).max_number_len
      = s.max_number_len := e5
  have a7 : stores ({ run K s (edges es) with
      ticks_timer := { (run K s (edges es)).ticks_timer with pending := false } } : State).trace
      = stores s.trace := e7
  have ac : ({ run K s (edges es) with
      ticks_timer := { (run K s (edges es)).ticks_timer with pending := false } } : State).ticks_count
      = wrap_int es.length := e1
  generalize ({ run K s (edges es) with
      ticks_timer := { (run K s (edges es)).ticks_timer with pending := false } } : State) = s1
      at a4 a5 a7 ac ⊢
  obtain ⟨-, -, -, -, -, -, -, f8⟩ :=
    ticks_sequence_finished_room K jf s1
      (by rw [a4]; exact hlen) (by rw [a4, a5]; exact hroom) (by rw [a5]; exact hmax)
  rw [f8, a7, a4, ac]

/-- C1 (as stated) fails twice.  With `max_number_len = 1` a single pulse makes
the expiry store three bytes, not one.  With `2 ^ 31` accepted pulses the
32-bit `ticks_count` has wrapped to `-2 ^ 31` and the byte stored is
`'0' + (-8) = 40`, not `'0' + 2 ^ 31 % 10 = 56`. -/
theorem pulses_then_expiry_digit_counterexample :
    (all_accepted kernel_100 (init_state 1 (zero_mem 1)) (train 0 1) = true ∧
      stores (run kernel_100 (init_state 1 (zero_mem 1))
        (edges (train 0 1) ++ [Event.ticks_expiry 60])).trace = [(0, 49), (1, 10), (2, 0)]) ∧
    (all_accepted kernel_100 (init_state 20 (zero_mem 20)) (train 0 2147483648) = true ∧
      (train 0 2147483648).length = 2147483648 ∧
      stores (run kernel_100 (init_state 20 (zero_mem 20))
        (edges (train 0 2147483648) ++ [Event.ticks_expiry 50])).trace = [(0, 40)] ∧
      (40 : Nat) ≠ 48 + 2147483648 % 10) := by
  have hacc := train_accepted kernel_100 2147483648 0 (init_state 20 (zero_mem 20)) rfl
  have hlen := train_length 2147483648 0
  refine ⟨⟨by decide, by decide⟩, hacc, hlen, ?_, by decide⟩
  generalize train 0 2147483648 = tr at hacc hlen ⊢
  have hne : tr ≠ [] := by
    intro h
    rw [h] at hlen
    exact absurd hlen (by decide)
  rw [pulses_then_expiry_store kernel_100 (init_state 20 (zero_mem 20)) tr 50 rfl
    (by decide) (by decide) (by decide) hne hacc, hlen]
  decide

/-- The interrupt handler never touches the buffer, its length, the
configuration or the sequence timer, and stores nothing. -/
theorem r_irq_handler_frame (K : Kernel) (t j : Nat) (s : State) :
    (r_irq_handler K t j s).ticks_output_buffer = s.ticks_output_buffer ∧
    (r_irq_handler K t j s).ticks_output_buffer_len = s.ticks_output_buffer_len ∧
    (r_irq_handler K t j s).max_number_len = s.max_number_len ∧
    (r_irq_handler K t j s).sequence_timer = s.sequence_timer ∧
    stores (r_irq_handler K t j s).trace = stores s.trace := by
  cases hd : debounced s t
  · obtain ⟨-, -, -, h4, h5, h6, h7, h8⟩ := r_irq_handler_accepted K t j s hd
    exact ⟨h4, h5, h6, h7, h8⟩
  · simp [r_irq_handler, hd]

/-- The function `sequence_sequence_finished` from a length inside the range
of `int`. -/
theorem sequence_sequence_finished_spec (s : State)
    (h0 : 0 ≤ s.ticks_output_buffer_len) (h1 : s.ticks_output_buffer_len < INT_MAX) :
    (sequence_sequence_finished s).ticks_output_buffer_len = 0 ∧
    (sequence_sequence_finished s).ticks_count = s.ticks_count ∧
    (sequence_sequence_finished s).ticks_timer = s.ticks_timer ∧
    (sequence_sequence_finished s).sequence_timer = s.sequence_timer ∧
    (sequence_sequence_finished s).max_number_len = s.max_number_len ∧
    (sequence_sequence_finished s).last_interrupt_time = s.last_interrupt_time ∧
    (sequence_sequence_finished s).ticks_output_buffer =
      (s.ticks_output_buffer.set s.ticks_output_buffer_len.toNat 10).set
        (s.ticks_output_buffer_len + 1).toNat 0 ∧
    stores (sequence_sequence_finished s).trace =
      stores s.trace ++ [(s.ticks_output_buffer_len, 10), (s.ticks_output_buffer_len + 1, 0)] := by
  have hinc : int_incr s.ticks_output_buffer_len = s.ticks_output_buffer_len + 1 :=
    int_incr_of_range _ (by omega) (by unfold INT_MAX at h1; omega)
  have h01 : 0 ≤ s.ticks_output_buffer_len + 1 := by omega
  simp only [sequence_sequence_finished, append_char, store, hinc, h0, h01]
  simp [stores_append, stores, to_char]

/-- Overwriting position `m` and keeping `m + 1` bytes. -/
theorem take_succ_set (l : List Nat) (m v : Nat) (h : m < l.length) :
    (l.set m v).take (m + 1) = l.take m ++ [v] := by
  induction l generalizing m with
  | nil => simp at h
  | cons a l ih =>
    cases m with
    | zero => simp
    | succ m =>
      simp only [List.length_cons, Nat.add_lt_add_iff_right] at h
      simp [List.set, List.take, ih m h]

/-- The wake-ups of a concatenated trace. -/
theorem wakeups_append (a b : List Effect) : wakeups (a ++ b) = wakeups a + wakeups b := by
  induction a with
  | nil => simp [wakeups]
  | cons e tr ih => cases e <;> simp [wakeups, ih]; omega

/-- An effective digit expiry whose digit leaves room in the buffer. -/
theorem step_ticks_expiry_room (K : Kernel) (jf : Nat) (s : State)
    (hp : s.ticks_timer.pending = true)
    (h0 : 0 ≤ s.ticks_output_buffer_len)
    (h1 : s.ticks_output_buffer_len + 1 < s.max_number_len)
    (hmax : s.max_number_len ≤ INT_MAX) :
    (step K s (Event.ticks_expiry jf)).ticks_count = 0 ∧
    (step K s (Event.ticks_expiry jf)).ticks_timer.pending = false ∧
    (step K s (Event.ticks_expiry jf)).max_number_len = s.max_number_len ∧
    (step K s (Event.ticks_expiry jf)).ticks_output_buffer_len = s.ticks_output_buffer_len + 1 ∧
    (step K s (Event.ticks_expiry jf)).ticks_output_buffer =
      s.ticks_output_buffer.set s.ticks_output_buffer_len.toNat
        (to_char (48 + Int.tmod s.ticks_count 10)) ∧
    (step K s (Event.ticks_expiry jf)).sequence_timer.pending = true ∧
    stores (step K s (Event.ticks_expiry jf)).trace =
      stores s.trace ++ [(s.ticks_output_buffer_len, to_char (48 + Int.tmod s.ticks_count 10))] ∧
    wakeups (step K s (Event.ticks_expiry jf)).trace = wakeups s.trace := by
  rw [step_ticks_expiry_pending K jf s hp]
  obtain ⟨f1, f2, f3, -, f5, f6, f7, f8⟩ :=
    ticks_sequence_finished_room K jf
      { s with ticks_timer := { s.ticks_timer with pending := false } } h0 h1 hmax
  refine ⟨f1, by rw [f2], f3, f5, f6, by rw [f7], f8, ?_⟩
  have hlt : s.ticks_output_buffer_len < s.max_number_len := by omega
  have hinc : int_incr s.ticks_output_buffer_len = s.ticks_output_buffer_len + 1 :=
    int_incr_of_range _ (by omega) (by unfold INT_MAX at hmax; omega)
  have hge : ¬ (s.ticks_output_buffer_len + 1 ≥ s.max_number_len) := by omega
  unfold ticks_sequence_finished
  simp only [hlt, if_true, append_char, store, hinc, h0, hge, if_false]
  by_cases hone : s.ticks_output_buffer_len + 1 = 1 <;>
    simp [hone, wakeups_append, wakeups]

/-- An effective digit expiry whose digit fills the buffer. -/
theorem step_ticks_expiry_fill (K : Kernel) (jf : Nat) (s : State)
    (hp : s.ticks_timer.pending = true)
    (h0 : 0 ≤ s.ticks_output_buffer_len)
    (h1 : s.ticks_output_buffer_len + 1 = s.max_number_len)
    (hmax : s.max_number_len < INT_MAX) :
    (step K s (Event.ticks_expiry jf)).ticks_count = 0 ∧
    (step K s (Event.ticks_expiry jf)).ticks_timer.pending = false ∧
    (step K s (Event.ticks_expiry jf)).max_number_len = s.max_number_len ∧
    (step K s (Event.ticks_expiry jf)).ticks_output_buffer_len = 0 ∧
    (step K s (Event.ticks_expiry jf)).ticks_output_buffer =
      ((s.ticks_output_buffer.set s.ticks_output_buffer_len.toNat
        (to_char (48 + Int.tmod s.ticks_count 10))).set
          (s.ticks_output_buffer_len + 1).toNat 10).set
            (s.ticks_output_buffer_len + 2).toNat 0 ∧
    (step K s (Event.ticks_expiry jf)).sequence_timer.pending = false ∧
    stores (step K s (Event.ticks_expiry jf)).trace =
      stores s.trace ++ [(s.ticks_output_buffer_len, to_char (48 + Int.tmod s.ticks_count 10)),
        (s.ticks_output_buffer_len + 1, 10), (s.ticks_output_buffer_len + 2, 0)] ∧
    wakeups (step K s (Event.ticks_expiry jf)).trace = wakeups s.trace + 1 := by
  rw [step_ticks_expiry_pending K jf s hp]
  obtain ⟨f1, f2, f3, -, f5, f6, f7, f8⟩ :=
    ticks_sequence_finished_fill K jf
      { s with ticks_timer := { s.ticks_timer with pending := false } } h0 h1 hmax
  refine ⟨f1, by rw [f2], f3, f5, f6, by rw [f7], f8, ?_⟩
  have hlt : s.ticks_output_buffer_len < s.max_number_len := by omega
  have hinc : int_incr s.ticks_output_buffer_len = s.ticks_output_buffer_len + 1 :=
    int_incr_of_range _ (by omega) (by unfold INT_MAX at hmax; omega)
  have hge : s.ticks_output_buffer_len + 1 ≥ s.max_number_len := by omega
  unfold ticks_sequence_finished
  simp only [hlt, if_true, append_char, store, hinc, h0, hge]
  simp [sequence_sequence_finished, append_char, store, wakeups_append, wakeups]

/-- The interrupt handler wakes nobody. -/
theorem r_irq_handler_wakeups (K : Kernel) (t j : Nat) (s : State) :
    wakeups (r_irq_handler K t j s).trace = wakeups s.trace := by
  unfold r_irq_handler
  cases hd : debounced s t
  · by_cases hc : s.ticks_count = 0 <;> simp [hc, wakeups_append, wakeups]
  · simp

/-- The pulse counts of a concatenated run. -/
theorem digit_counts_append (K : Kernel) (a b : List Event) :
    ∀ s : State, digit_counts K s (a ++ b) = digit_counts K s a ++ digit_counts K (run K s a) b := by
  induction a with
  | nil => intro s; rfl
  | cons e a ih =>
    intro s
    cases e with
    | edge t j => simpa [digit_counts, run_cons] using ih _
    | ticks_expiry jf =>
      have h := ih (step K s (Event.ticks_expiry jf))
      simp only [List.cons_append, digit_counts, run_cons, List.append_assoc]
      exact congrArg _ h
    | sequence_expiry => simpa [digit_counts, run_cons] using ih _

/-- A run without sequence expiry whose digits all leave room in the buffer:
the digits are appended in order, nothing is published. -/
theorem run_digits (K : Kernel) (evs : List Event) :
    ∀ (s : State) (cs : List Int),
      (∀ e ∈ evs, Event.is_sequence_expiry e = false) →
      digit_counts K s evs = cs →
      0 ≤ s.ticks_output_buffer_len →
      s.ticks_output_buffer_len + cs.length < s.max_number_len →
      s.max_number_len ≤ INT_MAX →
      s.max_number_len.toNat ≤ s.ticks_output_buffer.length →
      (run K s evs).ticks_output_buffer_len = s.ticks_output_buffer_len + cs.length ∧
      (run K s evs).max_number_len = s.max_number_len ∧
      (run K s evs).ticks_output_buffer.length = s.ticks_output_buffer.length ∧
      (run K s evs).ticks_output_buffer.take (s.ticks_output_buffer_len.toNat + cs.length) =
        s.ticks_output_buffer.take s.ticks_output_buffer_len.toNat ++
          cs.map (fun c => to_char (48 + Int.tmod c 10)) ∧
      (s.sequence_timer.pending = true ∨ cs ≠ [] → (run K s evs).sequence_timer.pending = true) ∧
      wakeups (run K s evs).trace = wakeups s.trace := by
  induction evs with
  | nil =>
    intro s cs _ hc _ _ _ _
    simp only [digit_counts] at hc
    subst hc
    simp [run]
  | cons e evs ih =>
    intro s cs hns hc h0 hroom hmax hmem
    have hns2 : ∀ e ∈ evs, Event.is_sequence_expiry e = false :=
      fun e he => hns e (List.mem_cons_of_mem _ he)
    rw [run_cons]
    cases e with
    | edge t j =>
      obtain ⟨g1, g2, g3, g4, -⟩ := r_irq_handler_frame K t j s
      have e5 : (step K s (Event.edge t j)).sequence_timer = s.sequence_timer := g4
      have gw := r_irq_handler_wakeups K t j s
      simp only [digit_counts] at hc
      have := ih (step K s (Event.edge t j)) cs hns2 hc
        (by show 0 ≤ (r_irq_handler K t j s).ticks_output_buffer_len; rw [g2]; exact h0)
        (by show (r_irq_handler K t j s).ticks_output_buffer_len + _ < (r_irq_handler K t j s).max_number_len
            rw [g2, g3]; exact hroom)
        (by show (r_irq_handler K t j s).max_number_len ≤ _; rw [g3]; exact hmax)
        (by show (r_irq_handler K t j s).max_number_len.toNat ≤ (r_irq_handler K t j s).ticks_output_buffer.length
            rw [g3, g1]; exact hmem)
      have e1 : (step K s (Event.edge t j)).ticks_output_buffer = s.ticks_output_buffer := g1
      have e2 : (step K s (Event.edge t j)).ticks_output_buffer_len = s.ticks_output_buffer_len := g2
      have e3 : (step K s (Event.edge t j)).max_number_len = s.max_number_len := g3
      have e4 : wakeups (step K s (Event.edge t j)).trace = wakeups s.trace := gw
      rw [e1, e2, e3, e4, e5] at this
      exact this
    | ticks_expiry jf =>
      by_cases hp : s.ticks_timer.pending = true
      · simp only [digit_counts, hp, if_true, List.singleton_append] at hc
        cases cs with
        | nil => simp at hc
        | cons c cs =>
          simp only [List.cons.injEq] at hc
          obtain ⟨hc1, hc2⟩ := hc
          simp only [List.length_cons, Nat.cast_add, Nat.cast_one] at hroom
          obtain ⟨f1, f2, f3, f4, f5, f6, -, f7⟩ :=
            step_ticks_expiry_room K jf s hp h0 (by omega) hmax
          have := ih (step K s (Event.ticks_expiry jf)) cs hns2 hc2
            (by rw [f4]; omega) (by rw [f4, f3]; omega) (by rw [f3]; exact hmax)
            (by rw [f3, f5, List.length_set]; exact hmem)
          rw [f3, f4, f5, f7, List.length_set] at this
          obtain ⟨r1, r2, r3, r4, r5, r6⟩ := this
          have hm : s.ticks_output_buffer_len.toNat < s.ticks_output_buffer.length := by omega
          refine ⟨?_, r2, r3, ?_, ?_, r6⟩
          · rw [r1]; simp only [List.length_cons]; push_cast; omega
          · have hidx : (s.ticks_output_buffer_len + 1).toNat + cs.length =
                s.ticks_output_buffer_len.toNat + (c :: cs).length := by
              simp only [List.length_cons]; omega
            have hidx2 : (s.ticks_output_buffer_len + 1).toNat = s.ticks_output_buffer_len.toNat + 1 := by
              omega
            rw [hidx, hidx2, take_succ_set _ _ _ hm] at r4
            rw [r4, ← hc1]
            simp
          · intro _
            exact r5 (Or.inl f6)
      · simp only [digit_counts, hp, Bool.false_eq_true, if_false, List.nil_append] at hc
        have hstep : step K s (Event.ticks_expiry jf) = s := by simp [step, hp]
        rw [hstep] at hc ⊢
        exact ih s cs hns2 hc h0 hroom hmax hmem
    | sequence_expiry =>
      have := hns Event.sequence_expiry (List.mem_cons_self _ _)
      simp [Event.is_sequence_expiry] at this

/-- The characters of a list of natural-number counts. -/
theorem map_digit_char (ns : List Nat) :
    (ns.map (fun n : Nat => (n : Int))).map (fun c => to_char (48 + Int.tmod c 10)) =
      ns.map (fun n => 48 + n % 10) := by
  induction ns with
  | nil => rfl
  | cons n ns ih => simp [digit_char]

/-- An effective sequence expiry from a length inside the range of `int`. -/
theorem step_sequence_expiry_pending (K : Kernel) (s : State)
    (hp : s.sequence_timer.pending = true)
    (h0 : 0 ≤ s.ticks_output_buffer_len) (h1 : s.ticks_output_buffer_len < INT_MAX) :
    (step K s Event.sequence_expiry).ticks_output_buffer_len = 0 ∧
    (step K s Event.sequence_expiry).ticks_count = s.ticks_count ∧
    (step K s Event.sequence_expiry).ticks_timer = s.ticks_timer ∧
    (step K s Event.sequence_expiry).sequence_timer.pending = false ∧
    (step K s Event.sequence_expiry).max_number_len = s.max_number_len ∧
    (step K s Event.sequence_expiry).ticks_output_buffer =
      (s.ticks_output_buffer.set s.ticks_output_buffer_len.toNat 10).set
        (s.ticks_output_buffer_len + 1).toNat 0 ∧
    stores (step K s Event.sequence_expiry).trace =
      stores s.trace ++ [(s.ticks_output_buffer_len, 10), (s.ticks_output_buffer_len + 1, 0)] := by
  have hstep : step K s Event.sequence_expiry = sequence_sequence_finished
      { s with sequence_timer := { s.sequence_timer with pending := false } } := by
    simp [step, hp]
  rw [hstep]
  obtain ⟨f1, f2, f3, f4, f5, -, f7, f8⟩ := sequence_sequence_finished_spec
    { s with sequence_timer := { s.sequence_timer with pending := false } } h0 h1
  exact ⟨f1, f2, f3, by rw [f4], f5, f7, f8⟩

/-- C2: from an empty buffer, a run without sequence expiry in which `k` digit
expiries take place with pulse counts `n1 .. nk`, `1 ≤ k < max_number_len`,
followed by one sequence expiry, leaves the bytes `0 .. k + 1` of the buffer
equal to the characters `'0' + ni % 10` in order, then a newline, then a NUL,
and leaves `ticks_output_buffer_len = 0`.  The sequence expiry does take place:
the sequence timer is queued after the `k` digits. -/
theorem digits_then_sequence_expiry (K : Kernel) (s : State) (evs : List Event) (ns : List Nat)
    (hempty : s.ticks_output_buffer_len = 0)
    (hmax : s.max_number_len ≤ INT_MAX)
    (hmem : s.ticks_output_buffer.length = alloc_size s.max_number_len)
    (hns : ∀ e ∈ evs, Event.is_sequence_expiry e = false)
    (hc : digit_counts K s evs = ns.map (fun n : Nat => (n : Int)))
    (hk1 : 1 ≤ ns.length) (hk2 : (ns.length : Int) < s.max_number_len) :
    (run K s evs).sequence_timer.pending = true ∧
    (run K s (evs ++ [Event.sequence_expiry])).ticks_output_buffer.take (ns.length + 2) =
      ns.map (fun n => 48 + n % 10) ++ [10, 0] ∧
    (run K s (evs ++ [Event.sequence_expiry])).ticks_output_buffer_len = 0 := by
  have hmem2 : s.max_number_len.toNat ≤ s.ticks_output_buffer.length := by
    rw [hmem]; unfold alloc_size; omega
  obtain ⟨r1, r2, r3, r4, r5, -⟩ := run_digits K evs s _ hns hc (by omega)
    (by rw [hempty, List.length_map]; omega) hmax hmem2
  rw [hempty, List.length_map] at r1 r4
  simp only [Int.toNat_zero, List.take_zero, List.nil_append, Nat.zero_add, Int.zero_add,
    map_digit_char] at r1 r4
  have hne : ns.map (fun n : Nat => (n : Int)) ≠ [] := by
    intro h
    have := congrArg List.length h
    rw [List.length_map, List.length_nil] at this
    omega
  have hp := r5 (Or.inr hne)
  rw [run_append]
  show _ ∧ (step K _ Event.sequence_expiry).ticks_output_buffer.take _ = _ ∧
    (step K _ Event.sequence_expiry).ticks_output_buffer_len = 0
  obtain ⟨f1, -, -, -, -, f6, -⟩ := step_sequence_expiry_pending K (run K s evs) hp
    (by rw [r1]; omega) (by rw [r1]; unfold INT_MAX at *; omega)
  refine ⟨hp, ?_, f1⟩
  rw [f6, r1]
  have hlen : ns.length + 1 < (run K s evs).ticks_output_buffer.length := by
    rw [r3, hmem]; unfold alloc_size; omega
  have e1 : ((ns.length : Int) + 1).toNat = ns.length + 1 := by omega
  have e2 : ((ns.length : Int)).toNat = ns.length := by omega
  rw [e1, e2, take_succ_set _ _ _ (by rw [List.length_set]; exact hlen),
    take_succ_set _ _ _ (by omega), r4]
  simp

/-- Witness for C2: two pulses, expiry, one pulse, expiry, sequence expiry from the
initial state publish `"21\n\0"`. -/
theorem digits_then_sequence_expiry_witness :
    digit_counts kernel_100 (init_state 20 (zero_mem 20))
      [Event.edge 100 10, Event.edge 200 20, Event.ticks_expiry 70, Event.edge 1000 100,
        Event.ticks_expiry 150] = [2, 1].map (fun n : Nat => (n : Int)) ∧
    (run kernel_100 (init_state 20 (zero_mem 20))
      ([Event.edge 100 10, Event.edge 200 20, Event.ticks_expiry 70, Event.edge 1000 100,
        Event.ticks_expiry 150] ++ [Event.sequence_expiry])).ticks_output_buffer.take 4 =
      [50, 49, 10, 0] :=
  ⟨by decide,
   (digits_then_sequence_expiry kernel_100 (init_state 20 (zero_mem 20))
      [Event.edge 100 10, Event.edge 200 20, Event.ticks_expiry 70, Event.edge 1000 100,
        Event.ticks_expiry 150] [2, 1] rfl (by decide) (by decide) (by decide) (by decide)
      (by decide) (by decide)).2.1⟩

/-- A run of edge events contains no digit expiry. -/
theorem digit_counts_edges (K : Kernel) (es : List (Nat × Nat)) :
    ∀ s : State, digit_counts K s (edges es) = [] := by
  induction es with
  | nil => intro s; rfl
  | cons e es ih =>
    intro s
    show digit_counts K (step K s (Event.edge e.1 e.2)) (edges es) = []
    exact ih _

/-- A run of edge events wakes no reader. -/
theorem run_edges_wakeups (K : Kernel) (es : List (Nat × Nat)) :
    ∀ s : State, wakeups (run K s (edges es)).trace = wakeups s.trace := by
  induction es with
  | nil => intro s; rfl
  | cons e es ih =>
    intro s
    have hrun : run K s (edges (e :: es)) = run K (r_irq_handler K e.1 e.2 s) (edges es) := rfl
    rw [hrun, ih, r_irq_handler_wakeups]

/-- C3 (amended): for `1 ≤ max_number_len ≤ 60`, from an empty buffer, in a run
without sequence expiry the digit expiry number `max_number_len` publishes by
itself and no earlier one does: before it no wake-up has been added, after it
exactly one; the buffer then holds, for each of the `max_number_len` digit
expiries in order, the character `'0' + ticks_count % 10` of the value
`ticks_count` had at that expiry, followed by a newline and a NUL;
`ticks_output_buffer_len` and `ticks_count` are 0 and the sequence timer is not
queued.  When no `ticks_count` had wrapped below zero, these characters are the
digit characters `'0' + n % 10` of the pulse counts. -/
theorem full_buffer_publishes (K : Kernel) (s : State) (evs : List Event) (jf : Nat)
    (hmax1 : 1 ≤ s.max_number_len) (hmax60 : s.max_number_len ≤ MAXIMUM_NUMBER_LEN)
    (hempty : s.ticks_output_buffer_len = 0)
    (hmem : s.ticks_output_buffer.length = alloc_size s.max_number_len)
    (hns : ∀ e ∈ evs, Event.is_sequence_expiry e = false)
    (hp : (run K s evs).ticks_timer.pending = true)
    (hk : ((digit_counts K s (evs ++ [Event.ticks_expiry jf])).length : Int) =
      s.max_number_len) :
    wakeups (run K s evs).trace = wakeups s.trace ∧
    wakeups (run K s (evs ++ [Event.ticks_expiry jf])).trace = wakeups s.trace + 1 ∧
    (run K s (evs ++ [Event.ticks_expiry jf])).ticks_output_buffer.take
        (s.max_number_len.toNat + 2) =
      (digit_counts K s (evs ++ [Event.ticks_expiry jf])).map
        (fun c => to_char (48 + Int.tmod c 10)) ++ [10, 0] ∧
    (run K s (evs ++ [Event.ticks_expiry jf])).ticks_output_buffer_len = 0 ∧
    (run K s (evs ++ [Event.ticks_expiry jf])).ticks_count = 0 ∧
    (run K s (evs ++ [Event.ticks_expiry jf])).sequence_timer.pending = false ∧
    (∀ ns : List Nat,
      digit_counts K s (evs ++ [Event.ticks_expiry jf]) = ns.map (fun n : Nat => (n : Int)) →
      (run K s (evs ++ [Event.ticks_expiry jf])).ticks_output_buffer.take (ns.length + 2) =
        ns.map (fun n => 48 + n % 10) ++ [10, 0]) := by
  unfold MAXIMUM_NUMBER_LEN at hmax60
  have hmaxI : s.max_number_len < INT_MAX := by unfold INT_MAX; omega
  have hdc : digit_counts K s (evs ++ [Event.ticks_expiry jf]) =
      digit_counts K s evs ++ [(run K s evs).ticks_count] := by
    rw [digit_counts_append]
    simp only [digit_counts, hp, if_true, List.append_nil]
  rw [hdc] at hk ⊢
  simp only [List.length_append, List.length_singleton, Nat.cast_add, Nat.cast_one] at hk
  have hmem2 : s.max_number_len.toNat ≤ s.ticks_output_buffer.length := by
    rw [hmem]; unfold alloc_size; omega
  obtain ⟨r1, r2, r3, r4, -, r6⟩ := run_digits K evs s _ hns rfl (by omega)
    (by rw [hempty]; omega) (le_of_lt hmaxI) hmem2
  rw [hempty] at r1 r4
  simp only [Int.toNat_zero, List.take_zero, List.nil_append, Nat.zero_add, Int.zero_add]
    at r1 r4
  obtain ⟨f1, -, -, f4, f5, f6, -, f7⟩ := step_ticks_expiry_fill K jf (run K s evs) hp
    (by rw [r1]; omega) (by rw [r1, r2]; omega) (by rw [r2]; exact hmaxI)
  rw [run_append]
  have hbuf : (step K (run K s evs) (Event.ticks_expiry jf)).ticks_output_buffer.take
        (s.max_number_len.toNat + 2) =
      (digit_counts K s evs ++ [(run K s evs).ticks_count]).map
        (fun c => to_char (48 + Int.tmod c 10)) ++ [10, 0] := by
    rw [f5, r1]
    generalize digit_counts K s evs = L at hk r1 r4 ⊢
    have hlen : L.length + 2 < (run K s evs).ticks_output_buffer.length := by
      rw [r3, hmem]; unfold alloc_size; omega
    have e0 : ((L.length : Int)).toNat = L.length := by omega
    have e1 : ((L.length : Int) + 1).toNat = L.length + 1 := by omega
    have e2 : ((L.length : Int) + 2).toNat = L.length + 1 + 1 := by omega
    have e3 : s.max_number_len.toNat + 2 = L.length + 1 + 1 + 1 := by omega
    rw [e0, e1, e2, e3, take_succ_set _ _ _ (by simp only [List.length_set]; omega),
      take_succ_set _ _ _ (by simp only [List.length_set]; omega),
      take_succ_set _ _ _ (by omega), r4]
    simp
  show _ ∧ wakeups (step K _ (Event.ticks_expiry jf)).trace = _ ∧
    (step K _ (Event.ticks_expiry jf)).ticks_output_buffer.take _ = _ ∧
    (step K _ (Event.ticks_expiry jf)).ticks_output_buffer_len = 0 ∧
    (step K _ (Event.ticks_expiry jf)).ticks_count = 0 ∧
    (step K _ (Event.ticks_expiry jf)).sequence_timer.pending = false ∧ _
  refine ⟨r6, by rw [f7, r6], hbuf, f4, f1, f6, ?_⟩
  intro ns hnat
  have hl : ns.length = s.max_number_len.toNat := by
    have := congrArg List.length hnat
    simp only [List.length_append, List.length_singleton, List.length_map] at this
    omega
  have hrs : run K (run K s evs) [Event.ticks_expiry jf] =
      step K (run K s evs) (Event.ticks_expiry jf) := rfl
  rw [hrs, hl, hbuf, hnat, map_digit_char]

/-- Witness for C3: with `max_number_len = 2` the second digit expiry publishes
`"11\n\0"` and leaves the sequence timer not queued. -/
theorem full_buffer_publishes_witness :
    (run kernel_100 (init_state 2 (zero_mem 2))
      ([Event.edge 100 10, Event.ticks_expiry 60, Event.edge 1000 100] ++
        [Event.ticks_expiry 150])).ticks_output_buffer.take 4 = [49, 49, 10, 0] ∧
    (run kernel_100 (init_state 2 (zero_mem 2))
      ([Event.edge 100 10, Event.ticks_expiry 60, Event.edge 1000 100] ++
        [Event.ticks_expiry 150])).sequence_timer.pending = false :=
  have h := full_buffer_publishes kernel_100 (init_state 2 (zero_mem 2))
    [Event.edge 100 10, Event.ticks_expiry 60, Event.edge 1000 100] 150
    (by decide) (by decide) rfl (by decide) (by decide) (by decide) (by decide)
  ⟨h.2.2.2.2.2.2 [1, 1] (by decide), h.2.2.2.2.2.1⟩

/-- C3 (as stated) fails.  With `max_number_len = 1`, from the initial state,
`2 ^ 31` accepted pulses wrap the 32-bit `ticks_count` to `-2 ^ 31`; the digit
expiry that follows is the first one, it publishes, and the buffer then holds
the byte 40, the character `'('`, followed by a newline and a NUL: one
character that is not a digit. -/
theorem full_buffer_publishes_counterexample :
    all_accepted kernel_100 (init_state 1 (zero_mem 1)) (train 0 2147483648) = true ∧
    (train 0 2147483648).length = 2147483648 ∧
    digit_counts kernel_100 (init_state 1 (zero_mem 1))
      (edges (train 0 2147483648) ++ [Event.ticks_expiry 50]) = [-2147483648] ∧
    wakeups (run kernel_100 (init_state 1 (zero_mem 1))
      (edges (train 0 2147483648) ++ [Event.ticks_expiry 50])).trace = 1 ∧
    (run kernel_100 (init_state 1 (zero_mem 1))
      (edges (train 0 2147483648) ++ [Event.ticks_expiry 50])).ticks_output_buffer.take 3 =
      [40, 10, 0] ∧
    ¬ (48 ≤ (40 : Nat) ∧ (40 : Nat) ≤ 57) := by
  have hacc := train_accepted kernel_100 2147483648 0 (init_state 1 (zero_mem 1)) rfl
  have hlen := train_length 2147483648 0
  have key : ∀ tr : List (Nat × Nat),
      all_accepted kernel_100 (init_state 1 (zero_mem 1)) tr = true →
      tr.length = 2147483648 →
      digit_counts kernel_100 (init_state 1 (zero_mem 1))
        (edges tr ++ [Event.ticks_expiry 50]) = [-2147483648] ∧
      wakeups (run kernel_100 (init_state 1 (zero_mem 1))
        (edges tr ++ [Event.ticks_expiry 50])).trace = 1 ∧
      (run kernel_100 (init_state 1 (zero_mem 1))
        (edges tr ++ [Event.ticks_expiry 50])).ticks_output_buffer.take 3 = [40, 10, 0] := by
    intro tr hacc hlen
    have hne : tr ≠ [] := by
      intro h
      rw [h] at hlen
      exact absurd hlen (by decide)
    obtain ⟨e1, e2, e3, e4, e5, -, -⟩ :=
      run_edges_accepted kernel_100 tr (init_state 1 (zero_mem 1)) rfl hacc
    have hp := e2 hne
    have hcnt : (run kernel_100 (init_state 1 (zero_mem 1)) (edges tr)).ticks_count =
        -2147483648 := by
      rw [e1, hlen]; decide
    have hw : wakeups (run kernel_100 (init_state 1 (zero_mem 1)) (edges tr)).trace = 0 :=
      run_edges_wakeups kernel_100 tr _
    obtain ⟨-, -, -, -, f5, -, -, f7⟩ := step_ticks_expiry_fill kernel_100 50
      (run kernel_100 (init_state 1 (zero_mem 1)) (edges tr)) hp
      (by rw [e4]; decide) (by rw [e4, e5]; decide) (by rw [e5]; decide)
    refine ⟨?_, ?_, ?_⟩
    · rw [digit_counts_append]
      simp only [digit_counts, hp, if_true, List.append_nil, hcnt, digit_counts_edges,
        List.nil_append]
    · rw [run_append]
      show wakeups (step kernel_100 _ (Event.ticks_expiry 50)).trace = 1
      rw [f7, hw]
    · rw [run_append]
      show (step kernel_100 _ (Event.ticks_expiry 50)).ticks_output_buffer.take 3 = _
      rw [f5, e3, e4, hcnt]
      decide
  exact ⟨hacc, hlen, (key _ hacc hlen).1, (key _ hacc hlen).2.1, (key _ hacc hlen).2.2,
    by decide⟩

/-- An edge less than 70 ms after an accepted edge with a non-zero timestamp is
rejected: the handler returns the state as it found it. -/
theorem r_irq_handler_rejects (K : Kernel) (s : State) (T2 j : Nat)
    (hT1 : s.last_interrupt_time ≠ 0)
    (hlt : s.last_interrupt_time < T2) (hgap : T2 - s.last_interrupt_time < 70) :
    r_irq_handler K T2 j s = s := by
  have hd : debounced s T2 = true := by
    unfold debounced u64_sub DEBOUNCE_MILLI
    simp only [Bool.and_eq_true, bne_iff_ne, ne_eq, decide_eq_true_eq]
    refine ⟨hT1, ?_⟩
    omega
  simp [r_irq_handler, hd]

/-- C4 (code bug): the edge accepted at `millis() = 0` leaves
`last_interrupt_time = 0`, which the debounce test reads as "no edge yet"; the
edge 40 ms later is accepted: it changes `last_interrupt_time`, `ticks_count`
and the expiry of the digit timer. -/
theorem debounce_after_timestamp_zero :
    debounced (init_state 20 (zero_mem 20)) 0 = false ∧
    (r_irq_handler kernel_100 0 0 (init_state 20 (zero_mem 20))).last_interrupt_time = 0 ∧
    (r_irq_handler kernel_100 0 0 (init_state 20 (zero_mem 20))).ticks_count = 1 ∧
    (r_irq_handler kernel_100 0 0 (init_state 20 (zero_mem 20))).ticks_timer =
      { pending := true, expires := 50 } ∧
    (r_irq_handler kernel_100 40 4
      (r_irq_handler kernel_100 0 0 (init_state 20 (zero_mem 20)))).last_interrupt_time = 40 ∧
    (r_irq_handler kernel_100 40 4
      (r_irq_handler kernel_100 0 0 (init_state 20 (zero_mem 20)))).ticks_count = 2 ∧
    (r_irq_handler kernel_100 40 4
      (r_irq_handler kernel_100 0 0 (init_state 20 (zero_mem 20)))).ticks_timer =
      { pending := true, expires := 54 } := by
  decide

/-- C5 (as stated) fails: in the run with edges at 0, 40 and 600 ms the edge at
40 ms is accepted (the count after it is 2), the digit timer fires twice, the
first time before the edge at 600 ms, the count after the edge at 600 ms is 1,
and the published buffer starts with two digits, not with `"2\n\0"`. -/
theorem scenario_counterexample :
    ((([0, 40].foldl (Timed.edge_at kernel_1000 0)
        { now := 0, state := init_state 20 (zero_mem 20), fired := [] }).state.ticks_count = 2) ∧
    (([0, 40, 600].foldl (Timed.edge_at kernel_1000 0)
        { now := 0, state := init_state 20 (zero_mem 20), fired := [] }).state.ticks_count ≠ 2) ∧
    (timed_run kernel_1000 0 (init_state 20 (zero_mem 20)) [0, 40, 600] 4100).fired =
      [(540, TimerId.ticks), (1100, TimerId.ticks), (4100, TimerId.sequence)] ∧
    (timed_run kernel_1000 0 (init_state 20 (zero_mem 20)) [0, 40, 600]
      4100).state.ticks_output_buffer.take 3 ≠ [50, 10, 0]) := by
  decide

/-- C5 (amended): with debounce window 70 ms, digit timeout 500 ms, sequence
timeout 3000 ms and `max_number_len = 20` (at `HZ = 1000` and at `HZ = 100`),
in the run from the initial state with edges at 0, 40 and 600 ms and every
timer firing at its expiry, the digit timer fires before the edge at 600 ms
(the gap since the earlier edges exceeds the digit timeout), the pulse count
after the edge at 600 ms is 1, the digit timer fires a second and last time at
1100 ms, appending `'1'` as second digit, and the sequence timer fires once,
after 3000 ms of silence, at 4100 ms, publishing two digits followed by
`"\n\0"` and resetting the length. -/
theorem scenario_two_digits :
    (([0, 40, 600].foldl (Timed.edge_at kernel_1000 0)
        { now := 0, state := init_state 20 (zero_mem 20), fired := [] }).fired.map Prod.snd =
        [TimerId.ticks] ∧
      ([0, 40, 600].foldl (Timed.edge_at kernel_1000 0)
        { now := 0, state := init_state 20 (zero_mem 20), fired := [] }).state.ticks_count = 1 ∧
      (timed_run kernel_1000 0 (init_state 20 (zero_mem 20)) [0, 40, 600] 4099).fired.tail =
        [(1100, TimerId.ticks)] ∧
      wakeups (timed_run kernel_1000 0 (init_state 20 (zero_mem 20)) [0, 40, 600]
        4099).state.trace = 0 ∧
      (timed_run kernel_1000 0 (init_state 20 (zero_mem 20)) [0, 40, 600] 4100).fired.tail =
        [(1100, TimerId.ticks), (4100, TimerId.sequence)] ∧
      ((timed_run kernel_1000 0 (init_state 20 (zero_mem 20)) [0, 40, 600]
        4100).state.ticks_output_buffer.drop 1).take 3 = [49, 10, 0] ∧
      (timed_run kernel_1000 0 (init_state 20 (zero_mem 20)) [0, 40, 600]
        4100).state.ticks_output_buffer_len = 0) ∧
    (([0, 40, 600].foldl (Timed.edge_at kernel_100 0)
        { now := 0, state := init_state 20 (zero_mem 20), fired := [] }).fired.map Prod.snd =
        [TimerId.ticks] ∧
      ([0, 40, 600].foldl (Timed.edge_at kernel_100 0)
        { now := 0, state := init_state 20 (zero_mem 20), fired := [] }).state.ticks_count = 1 ∧
      (timed_run kernel_100 0 (init_state 20 (zero_mem 20)) [0, 40, 600] 4099).fired.tail =
        [(110, TimerId.ticks)] ∧
      wakeups (timed_run kernel_100 0 (init_state 20 (zero_mem 20)) [0, 40, 600]
        4099).state.trace = 0 ∧
      (timed_run kernel_100 0 (init_state 20 (zero_mem 20)) [0, 40, 600] 4100).fired.tail =
        [(110, TimerId.ticks), (410, TimerId.sequence)] ∧
      ((timed_run kernel_100 0 (init_state 20 (zero_mem 20)) [0, 40, 600]
        4100).state.ticks_output_buffer.drop 1).take 3 = [49, 10, 0] ∧
      (timed_run kernel_100 0 (init_state 20 (zero_mem 20)) [0, 40, 600]
        4100).state.ticks_output_buffer_len = 0) := by
  decide

/-- A run of edge events leaves the buffer as it is. -/
theorem run_edges_buffer (K : Kernel) (es : List (Nat × Nat)) :
    ∀ s : State, (run K s (edges es)).ticks_output_buffer = s.ticks_output_buffer := by
  induction es with
  | nil => intro s; rfl
  | cons e es ih =>
    intro s
    have hrun : run K s (edges (e :: es)) = run K (r_irq_handler K e.1 e.2 s) (edges es) := rfl
    rw [hrun, ih, (r_irq_handler_frame K e.1 e.2 s).1]

/-- C6 (as stated) fails: after the publication of `"1\n"`, two pulses and the
expiry of the digit timer, with no sequence finalization, a read delivers
`"2\n"`: the new digit has overwritten the first published byte. -/
theorem read_after_digit_counterexample :
    (device_read kernel_100 (run kernel_100 (init_state 20 (zero_mem 20))
      [Event.edge 100 10, Event.ticks_expiry 60, Event.sequence_expiry]) [] 0).user = [49, 10] ∧
    wakeups (run kernel_100 (init_state 20 (zero_mem 20))
      ([Event.edge 100 10, Event.ticks_expiry 60, Event.sequence_expiry] ++
        [Event.edge 5000 500, Event.edge 5100 510, Event.ticks_expiry 560])).trace =
      wakeups (run kernel_100 (init_state 20 (zero_mem 20))
        [Event.edge 100 10, Event.ticks_expiry 60, Event.sequence_expiry]).trace ∧
    (device_read kernel_100 (run kernel_100 (init_state 20 (zero_mem 20))
      ([Event.edge 100 10, Event.ticks_expiry 60, Event.sequence_expiry] ++
        [Event.edge 5000 500, Event.edge 5100 510, Event.ticks_expiry 560])) [] 0).user =
      [50, 10] := by
  decide

/-- C6 (amended): in every state, so also right after a publication, the
contents a read delivers (the bytes from the start of `ticks_output_buffer`
up to the first NUL, as `device_read` computes them) and its return value are unchanged by
every run of edge events. -/
theorem read_unchanged_by_edges (K : Kernel) (s : State) (es : List (Nat × Nat))
    (beyond : List Nat) (not_copied : Nat) :
    (device_read K (run K s (edges es)) beyond not_copied).user =
      (device_read K s beyond not_copied).user ∧
    (device_read K (run K s (edges es)) beyond not_copied).ret =
      (device_read K s beyond not_copied).ret := by
  simp [device_read, run_edges_buffer]

/-- One event preserves the buffer invariant: the length stays in
`0 ≤ len < max_number_len` and every store so far is at an index in
`0 .. max_number_len + 1`. -/
theorem step_buffer_inv (K : Kernel) (M : Int) (s : State) (e : Event)
    (hM1 : 1 ≤ M) (hM2 : M < INT_MAX)
    (hmax : s.max_number_len = M)
    (h0 : 0 ≤ s.ticks_output_buffer_len) (h1 : s.ticks_output_buffer_len < M)
    (hst : ∀ p ∈ stores s.trace, 0 ≤ p.1 ∧ p.1 ≤ M + 1) :
    (step K s e).max_number_len = M ∧
    0 ≤ (step K s e).ticks_output_buffer_len ∧ (step K s e).ticks_output_buffer_len < M ∧
    (step K s e).ticks_output_buffer.length = s.ticks_output_buffer.length ∧
    ∀ p ∈ stores (step K s e).trace, 0 ≤ p.1 ∧ p.1 ≤ M + 1 := by
  cases e with
  | edge t j =>
    obtain ⟨g1, g2, g3, -, g5⟩ := r_irq_handler_frame K t j s
    show (r_irq_handler K t j s).max_number_len = M ∧
      0 ≤ (r_irq_handler K t j s).ticks_output_buffer_len ∧
      (r_irq_handler K t j s).ticks_output_buffer_len < M ∧
      (r_irq_handler K t j s).ticks_output_buffer.length = s.ticks_output_buffer.length ∧
      ∀ p ∈ stores (r_irq_handler K t j s).trace, 0 ≤ p.1 ∧ p.1 ≤ M + 1
    rw [g1, g2, g3, g5]
    exact ⟨hmax, h0, h1, rfl, hst⟩
  | ticks_expiry jf =>
    by_cases hp : s.ticks_timer.pending = true
    · by_cases hroom : s.ticks_output_buffer_len + 1 < s.max_number_len
      · obtain ⟨-, -, f3, f4, f5, -, f7, -⟩ :=
          step_ticks_expiry_room K jf s hp h0 hroom (by rw [hmax]; exact le_of_lt hM2)
        rw [f3, f4, f5, f7, List.length_set]
        refine ⟨hmax, by omega, by omega, rfl, ?_⟩
        intro p hp
        rw [List.mem_append] at hp
        rcases hp with hp | hp
        · exact hst p hp
        · simp only [List.mem_singleton] at hp
          subst hp
          exact ⟨h0, by show s.ticks_output_buffer_len ≤ M + 1; omega⟩
      · obtain ⟨-, -, f3, f4, f5, -, f7, -⟩ :=
          step_ticks_expiry_fill K jf s hp h0 (by omega) (by rw [hmax]; exact hM2)
        rw [f3, f4, f5, f7]
        simp only [List.length_set]
        refine ⟨hmax, by omega, by omega, trivial, ?_⟩
        intro p hp
        rw [List.mem_append] at hp
        rcases hp with hp | hp
        · exact hst p hp
        · simp only [List.mem_cons, List.mem_singleton, List.not_mem_nil, or_false] at hp
          rcases hp with hp | hp | hp <;> subst hp <;> constructor <;>
            simp only <;> omega
    · have hstep : step K s (Event.ticks_expiry jf) = s := by simp [step, hp]
      rw [hstep]
      exact ⟨hmax, h0, h1, rfl, hst⟩
  | sequence_expiry =>
    by_cases hp : s.sequence_timer.pending = true
    · obtain ⟨f1, -, -, -, f5, f6, f7⟩ := step_sequence_expiry_pending K s hp h0
        (by omega)
      rw [f1, f5, f6, f7]
      simp only [List.length_set]
      refine ⟨hmax, by omega, by omega, trivial, ?_⟩
      intro p hp
      rw [List.mem_append] at hp
      rcases hp with hp | hp
      · exact hst p hp
      · simp only [List.mem_cons, List.mem_singleton, List.not_mem_nil, or_false] at hp
        rcases hp with hp | hp <;> subst hp <;> constructor <;> simp only <;> omega
    · have hstep : step K s Event.sequence_expiry = s := by simp [step, hp]
      rw [hstep]
      exact ⟨hmax, h0, h1, rfl, hst⟩

/-- The buffer invariant holds along every run. -/
theorem run_buffer_inv (K : Kernel) (M : Int) (hM1 : 1 ≤ M) (hM2 : M < INT_MAX)
    (evs : List Event) :
    ∀ s : State, s.max_number_len = M → 0 ≤ s.ticks_output_buffer_len →
      s.ticks_output_buffer_len < M →
      (∀ p ∈ stores s.trace, 0 ≤ p.1 ∧ p.1 ≤ M + 1) →
      (run K s evs).max_number_len = M ∧
      0 ≤ (run K s evs).ticks_output_buffer_len ∧ (run K s evs).ticks_output_buffer_len < M ∧
      (run K s evs).ticks_output_buffer.length = s.ticks_output_buffer.length ∧
      ∀ p ∈ stores (run K s evs).trace, 0 ≤ p.1 ∧ p.1 ≤ M + 1 := by
  induction evs with
  | nil => intro s hmax h0 h1 hst; exact ⟨hmax, h0, h1, rfl, hst⟩
  | cons e evs ih =>
    intro s hmax h0 h1 hst
    obtain ⟨a1, a2, a3, a4, a5⟩ := step_buffer_inv K M s e hM1 hM2 hmax h0 h1 hst
    obtain ⟨b1, b2, b3, b4, b5⟩ := ih (step K s e) a1 a2 a3 a5
    rw [run_cons]
    exact ⟨b1, b2, b3, by rw [b4, a4], b5⟩

/-- C7: for `1 ≤ max_number_len ≤ 60` and every finite sequence of edge,
digit-expiry and sequence-expiry events applied to the initial state, after
each event (after every prefix of the sequence) `ticks_output_buffer_len` is
between 0 and 60, and every byte stored so far went to an index at most
`max_number_len + 1`, inside the `max_number_len + 4` bytes `r_init`
allocates. -/
theorem buffer_length_and_stores_bounded (K : Kernel) (M : Int) (mem : List Nat)
    (evs : List Event) (n : Nat)
    (hM1 : 1 ≤ M) (hM60 : M ≤ MAXIMUM_NUMBER_LEN) (hmem : mem.length = alloc_size M) :
    0 ≤ (run K (init_state M mem) (evs.take n)).ticks_output_buffer_len ∧
    (run K (init_state M mem) (evs.take n)).ticks_output_buffer_len ≤ 60 ∧
    (run K (init_state M mem) (evs.take n)).ticks_output_buffer.length = alloc_size M ∧
    ∀ p ∈ stores (run K (init_state M mem) (evs.take n)).trace,
      0 ≤ p.1 ∧ p.1 ≤ M + 1 ∧ p.1.toNat < alloc_size M := by
  unfold MAXIMUM_NUMBER_LEN at hM60
  obtain ⟨-, b2, b3, b4, b5⟩ := run_buffer_inv K M hM1 (by unfold INT_MAX; omega) (evs.take n)
    (init_state M mem) rfl (by simp [init_state]) (by simp [init_state]; omega)
    (by simp [init_state, stores])
  refine ⟨b2, by omega, by rw [b4]; exact hmem, ?_⟩
  intro p hp
  obtain ⟨c1, c2⟩ := b5 p hp
  refine ⟨c1, c2, ?_⟩
  unfold alloc_size
  omega

/-- Witness for C7: a run with `max_number_len = 2` through a forced publication. -/
theorem buffer_length_and_stores_bounded_witness :
    (run kernel_100 (init_state 2 (zero_mem 2))
      ([Event.edge 100 10, Event.ticks_expiry 60, Event.edge 1000 100, Event.ticks_expiry 150,
        Event.sequence_expiry].take 4)).ticks_output_buffer_len ≤ 60 ∧
    ∀ p ∈ stores (run kernel_100 (init_state 2 (zero_mem 2))
      ([Event.edge 100 10, Event.ticks_expiry 60, Event.edge 1000 100, Event.ticks_expiry 150,
        Event.sequence_expiry].take 4)).trace,
      0 ≤ p.1 ∧ p.1 ≤ 2 + 1 ∧ p.1.toNat < alloc_size 2 :=
  have h := buffer_length_and_stores_bounded kernel_100 2 (zero_mem 2)
    [Event.edge 100 10, Event.ticks_expiry 60, Event.edge 1000 100, Event.ticks_expiry 150,
      Event.sequence_expiry] 4 (by decide) (by decide) (by decide)
  ⟨h.2.1, h.2.2.2⟩

/-- C8 (as stated) fails at `ticks_count = INT_MAX`, the count `2 ^ 31 - 1`
accepted edges in a row reach: the increment of the next accepted edge wraps
to `-2 ^ 31` instead of adding 1. -/
theorem edge_increment_counterexample :
    (run kernel_100 (init_state 20 (zero_mem 20)) (edges (train 0 2147483647))).ticks_count =
      2147483647 ∧
    debounced
      { init_state 20 (zero_mem 20) with
        ticks_count := 2147483647
        last_interrupt_time := 1000
        ticks_timer := { pending := true, expires := 150 } } 2000 = false ∧
    (r_irq_handler kernel_100 2000 200
      { init_state 20 (zero_mem 20) with
        ticks_count := 2147483647
        last_interrupt_time := 1000
        ticks_timer := { pending := true, expires := 150 } }).ticks_count = -2147483648 ∧
    (-2147483648 : Int) ≠ 2147483647 + 1 := by
  refine ⟨?_, by decide, by decide, by decide⟩
  have hacc := train_accepted kernel_100 2147483647 0 (init_state 20 (zero_mem 20)) rfl
  have hlen := train_length 2147483647 0
  generalize train 0 2147483647 = tr at hacc hlen ⊢
  rw [(run_edges_accepted kernel_100 tr (init_state 20 (zero_mem 20)) rfl hacc).1, hlen]
  decide

/-- C8 (amended): for every state whose `ticks_count` is an `int` below
`INT_MAX` and every edge at timestamp `T` that passes the debounce test,
`r_irq_handler` sets `last_interrupt_time` to `T`, increases `ticks_count` by
exactly 1 and leaves the digit timer queued with expiry `jiffies +
TIMEOUT_DELAY` (`unsigned long` arithmetic), by `init_timer` and `add_timer`
when `ticks_count` was 0 and by `mod_timer` otherwise; the buffer, its length,
`max_number_len` and the sequence timer are unchanged. -/
theorem edge_accepted_effect (K : Kernel) (s : State) (T j : Nat)
    (hd : debounced s T = false)
    (hlo : -2147483648 ≤ s.ticks_count) (hhi : s.ticks_count < INT_MAX) :
    (r_irq_handler K T j s).last_interrupt_time = T ∧
    (r_irq_handler K T j s).ticks_count = s.ticks_count + 1 ∧
    (r_irq_handler K T j s).ticks_timer =
      { pending := true, expires := (j + K.HZ / 2) % 2 ^ K.BITS_PER_LONG } ∧
    (r_irq_handler K T j s).trace = s.trace ++
      (if s.ticks_count = 0 then
        [Effect.init_timer TimerId.ticks s.ticks_timer.pending, Effect.add_timer TimerId.ticks]
       else [Effect.mod_timer TimerId.ticks s.ticks_timer.pending]) ∧
    (r_irq_handler K T j s).ticks_output_buffer = s.ticks_output_buffer ∧
    (r_irq_handler K T j s).ticks_output_buffer_len = s.ticks_output_buffer_len ∧
    (r_irq_handler K T j s).max_number_len = s.max_number_len ∧
    (r_irq_handler K T j s).sequence_timer = s.sequence_timer := by
  have hinc : int_incr s.ticks_count = s.ticks_count + 1 :=
    int_incr_of_range _ hlo (by unfold INT_MAX at hhi; exact hhi)
  unfold r_irq_handler
  simp only [hd, Bool.false_eq_true, if_false]
  by_cases hc : s.ticks_count = 0
  · rw [hc] at hinc
    simp [hc, hinc, ulong_add, TIMEOUT_DELAY]
  · simp [hc, hinc, ulong_add, TIMEOUT_DELAY]

/-- Witness for C8: the second pulse of a digit, 100 ms after the first. -/
theorem edge_accepted_effect_witness :
    debounced (r_irq_handler kernel_100 100 10 (init_state 20 (zero_mem 20))) 200 = false ∧
    (r_irq_handler kernel_100 200 20
      (r_irq_handler kernel_100 100 10 (init_state 20 (zero_mem 20)))).ticks_count = 1 + 1 ∧
    (r_irq_handler kernel_100 200 20
      (r_irq_handler kernel_100 100 10 (init_state 20 (zero_mem 20)))).ticks_timer =
      { pending := true, expires := (20 + 100 / 2) % 2 ^ 32 } :=
  have h := edge_accepted_effect kernel_100
    (r_irq_handler kernel_100 100 10 (init_state 20 (zero_mem 20))) 200 20
    (by decide) (by decide) (by decide)
  ⟨by decide, h.2.1, h.2.2.1⟩

/-- The value of `strlen` on non-zero bytes followed by a newline and a NUL. -/
theorem strlen_digits (ds rest : List Nat) (hd : ∀ d ∈ ds, d ≠ 0) :
    strlen (ds ++ 10 :: 0 :: rest) = ds.length + 1 := by
  unfold strlen
  induction ds with
  | nil => simp [List.takeWhile]
  | cons d ds ih =>
    have hd0 : d ≠ 0 := hd d (List.mem_cons_self _ _)
    have := ih (fun x hx => hd x (List.mem_cons_of_mem _ hx))
    have hb : (d != 0) = true := by simp [hd0]
    rw [List.cons_append, List.takeWhile_cons, hb]
    simp [this]

/-- C9 (as stated) fails: after the publication of the one digit `'2'` the
buffer holds `"2\n\0"`, and a successful read delivers and counts the two
bytes `"2\n"`; the NUL is not part of what is delivered. -/
theorem read_delivers_counterexample :
    (run kernel_100 (init_state 20 (zero_mem 20))
      [Event.edge 100 10, Event.edge 200 20, Event.ticks_expiry 70,
        Event.sequence_expiry]).ticks_output_buffer.take 3 = [50, 10, 0] ∧
    (device_read kernel_100 (run kernel_100 (init_state 20 (zero_mem 20))
      [Event.edge 100 10, Event.edge 200 20, Event.ticks_expiry 70,
        Event.sequence_expiry]) [] 0).user = [50, 10] ∧
    (device_read kernel_100 (run kernel_100 (init_state 20 (zero_mem 20))
      [Event.edge 100 10, Event.edge 200 20, Event.ticks_expiry 70,
        Event.sequence_expiry]) [] 0).ret = 2 ∧
    ([50, 10] : List Nat) ≠ [50, 10, 0] := by
  decide

/-- C9 (amended): when the buffer holds a published sequence of `k` digit
characters (`1 ≤ k ≤ max_number_len ≤ 60`) followed by a newline and a NUL,
a read whose transfer succeeds delivers the `k` digit characters in order
followed by the newline, without the NUL, and returns their number `k + 1`,
which is at most `max_number_len + 2`. -/
theorem read_delivers_digits_and_newline (K : Kernel) (s : State) (ds : List Nat)
    (beyond : List Nat)
    (hk1 : 1 ≤ ds.length) (hk2 : (ds.length : Int) ≤ s.max_number_len)
    (hmax : s.max_number_len ≤ MAXIMUM_NUMBER_LEN)
    (hdig : ∀ d ∈ ds, 48 ≤ d ∧ d ≤ 57)
    (hbuf : s.ticks_output_buffer.take (ds.length + 2) = ds ++ [10, 0]) :
    (device_read K s beyond 0).user = ds ++ [10] ∧
    (device_read K s beyond 0).ret = (ds.length : Int) + 1 ∧
    (device_read K s beyond 0).ret ≤ s.max_number_len + 2 ∧
    (device_read K s beyond 0).state = s := by
  unfold MAXIMUM_NUMBER_LEN at hmax
  have hsplit : s.ticks_output_buffer ++ beyond =
      ds ++ 10 :: 0 :: (s.ticks_output_buffer.drop (ds.length + 2) ++ beyond) := by
    conv_lhs => rw [← List.take_append_drop (ds.length + 2) s.ticks_output_buffer, hbuf]
    simp
  have hlen : strlen (s.ticks_output_buffer ++ beyond) = ds.length + 1 := by
    rw [hsplit]
    exact strlen_digits ds _ (fun d hd => by have := hdig d hd; omega)
  have hmod : (ds.length + 1) % 4294967296 = ds.length + 1 := by omega
  have hss : ssize_of_uint K (ds.length + 1) = (ds.length : Int) + 1 := by
    unfold ssize_of_uint wrap_int
    split
    · push_cast; rfl
    · push_cast; omega
  unfold device_read
  simp only [hlen, hmod, ne_eq, not_true_eq_false, if_false, Nat.sub_zero, hss]
  refine ⟨?_, trivial, by omega, trivial⟩
  rw [hsplit]
  have : ds ++ 10 :: 0 :: (List.drop (ds.length + 2) s.ticks_output_buffer ++ beyond) =
      (ds ++ [10]) ++ (0 :: (List.drop (ds.length + 2) s.ticks_output_buffer ++ beyond)) := by
    simp
  rw [this, List.take_left' (by simp)]

/-- Witness for C9: the read after the publication of the digit `'2'`. -/
theorem read_delivers_digits_and_newline_witness :
    (run kernel_100 (init_state 20 (zero_mem 20))
      [Event.edge 100 10, Event.edge 200 20, Event.ticks_expiry 70,
        Event.sequence_expiry]).ticks_output_buffer.take ([50].length + 2) = [50] ++ [10, 0] ∧
    (device_read kernel_100 (run kernel_100 (init_state 20 (zero_mem 20))
      [Event.edge 100 10, Event.edge 200 20, Event.ticks_expiry 70,
        Event.sequence_expiry]) [85, 85] 0).user = [50] ++ [10] :=
  ⟨by decide,
   (read_delivers_digits_and_newline kernel_100 (run kernel_100 (init_state 20 (zero_mem 20))
      [Event.edge 100 10, Event.edge 200 20, Event.ticks_expiry 70, Event.sequence_expiry])
      [50] [85, 85] (by decide) (by decide) (by decide) (by decide) (by decide)).1⟩

/-- One event preserves the timer invariant, provided an accepted edge does
not overflow `ticks_count`. -/
theorem step_timer_inv (K : Kernel) (M : Int) (s : State) (e : Event)
    (hM : M ≤ MAXIMUM_NUMBER_LEN)
    (hno : no_overflow K s [e] = true)
    (hmax : s.max_number_len = M)
    (hc0 : 0 ≤ s.ticks_count)
    (ht : s.ticks_timer.pending = true ↔ 0 < s.ticks_count)
    (hs : s.sequence_timer.pending = true ↔ 1 ≤ s.ticks_output_buffer_len)
    (hl0 : 0 ≤ s.ticks_output_buffer_len)
    (hl1 : s.ticks_output_buffer_len = 0 ∨ s.ticks_output_buffer_len < M)
    (htr : ∀ x ∈ s.trace, arm_ok x = true) :
    (step K s e).max_number_len = M ∧
    0 ≤ (step K s e).ticks_count ∧
    ((step K s e).ticks_timer.pending = true ↔ 0 < (step K s e).ticks_count) ∧
    ((step K s e).sequence_timer.pending = true ↔ 1 ≤ (step K s e).ticks_output_buffer_len) ∧
    0 ≤ (step K s e).ticks_output_buffer_len ∧
    ((step K s e).ticks_output_buffer_len = 0 ∨ (step K s e).ticks_output_buffer_len < M) ∧
    ∀ x ∈ (step K s e).trace, arm_ok x = true := by
  unfold MAXIMUM_NUMBER_LEN at hM
  cases e with
  | edge t j =>
    cases hd : debounced s t
    · simp only [no_overflow, hd, Bool.false_or, Bool.and_true, decide_eq_true_eq] at hno
      have hinc : int_incr s.ticks_count = s.ticks_count + 1 :=
        int_incr_of_range _ (by omega) (by unfold INT_MAX at hno; exact hno)
      by_cases hz : s.ticks_count = 0
      · have hpf : s.ticks_timer.pending = false := by
          cases hpp : s.ticks_timer.pending
          · rfl
          · have := ht.mp hpp; omega
        rw [hz] at hinc
        simp only [step, r_irq_handler, hd, hz, hinc, hpf, Bool.false_eq_true, if_false, if_true]
        refine ⟨hmax, by omega, by simp, hs, hl0, hl1, ?_⟩
        intro x hx
        rw [List.mem_append] at hx
        rcases hx with hx | hx
        · exact htr x hx
        · simp only [List.mem_cons, List.mem_singleton, List.not_mem_nil, or_false] at hx
          rcases hx with hx | hx <;> subst hx <;> rfl
      · have hpt : s.ticks_timer.pending = true := ht.mpr (by omega)
        simp only [step, r_irq_handler, hd, hz, hinc, hpt, Bool.false_eq_true, if_false]
        refine ⟨hmax, by omega, by simp; omega, hs, hl0, hl1, ?_⟩
        intro x hx
        rw [List.mem_append] at hx
        rcases hx with hx | hx
        · exact htr x hx
        · simp only [List.mem_singleton] at hx
          subst hx; rfl
    · simp only [step, r_irq_handler, hd, if_true]
      exact ⟨hmax, hc0, ht, hs, hl0, hl1, htr⟩
  | ticks_expiry jf =>
    by_cases hp : s.ticks_timer.pending = true
    · have hmem : ∀ (a b : List Effect), (∀ x ∈ b, arm_ok x = true) →
          ∀ x ∈ s.trace ++ a ++ b, (∀ y ∈ a, arm_ok y = true) → arm_ok x = true := by
        intro a b hb x hx ha
        simp only [List.mem_append] at hx
        rcases hx with (hx | hx) | hx
        · exact htr x hx
        · exact ha x hx
        · exact hb x hx
      by_cases hlt : s.ticks_output_buffer_len < s.max_number_len
      · have hinc : int_incr s.ticks_output_buffer_len = s.ticks_output_buffer_len + 1 :=
          int_incr_of_range _ (by omega) (by omega)
        by_cases hge : s.ticks_output_buffer_len + 1 ≥ s.max_number_len
        · have hinc2 : int_incr (s.ticks_output_buffer_len + 1) = s.ticks_output_buffer_len + 2 := by
            rw [int_incr_of_range _ (by omega) (by omega)]; omega
          simp only [step, hp, if_true, ticks_sequence_finished, hlt, append_char, store, hinc,
            hge, sequence_sequence_finished, hinc2]
          refine ⟨hmax, le_refl _, by simp, by simp, le_refl _, by simp, ?_⟩
          intro x hx
          simp only [List.mem_append, List.mem_singleton] at hx
          rcases hx with ((((hx | hx) | hx) | hx) | hx) | hx
          · exact htr x hx
          all_goals (subst hx; rfl)
        · by_cases hone : s.ticks_output_buffer_len + 1 = 1
          · have hsf : s.sequence_timer.pending = false := by
              cases hpp : s.sequence_timer.pending
              · rfl
              · have := hs.mp hpp; omega
            have hz : s.ticks_output_buffer_len = 0 := by omega
            have hi1 : int_incr 0 = 1 := by decide
            have hlt0 : (0 : Int) < s.max_number_len := by omega
            have hge1 : ¬ ((1 : Int) ≥ s.max_number_len) := by omega
            simp only [step, hp, if_true, ticks_sequence_finished, append_char, store, hz, hi1,
              hlt0, hge1, if_false, hsf]
            refine ⟨hmax, le_refl _, by simp, by simp, by omega, Or.inr (by omega), ?_⟩
            intro x hx
            simp only [List.mem_append, List.mem_singleton, List.mem_cons, List.not_mem_nil,
              or_false] at hx
            rcases hx with (hx | hx) | hx | hx
            · exact htr x hx
            all_goals (subst hx; rfl)
          · have hst : s.sequence_timer.pending = true := hs.mpr (by omega)
            simp only [step, hp, if_true, ticks_sequence_finished, hlt, append_char, store, hinc,
              hge, if_false, hone, hst]
            refine ⟨hmax, le_refl _, by simp, by simp; omega, by omega, Or.inr (by omega), ?_⟩
            intro x hx
            simp only [List.mem_append, List.mem_singleton] at hx
            rcases hx with (hx | hx) | hx
            · exact htr x hx
            all_goals (subst hx; rfl)
      · have hz : s.ticks_output_buffer_len = 0 := by omega
        have hlt0 : ¬ ((0 : Int) < s.max_number_len) := by omega
        have hge0 : (0 : Int) ≥ s.max_number_len := by omega
        have hi1 : int_incr 0 = 1 := by decide
        have hi2 : int_incr 1 = 2 := by decide
        simp only [step, hp, if_true, ticks_sequence_finished, hz, hlt0, if_false, hge0,
          sequence_sequence_finished, append_char, store, hi1, hi2]
        refine ⟨hmax, le_refl _, by simp, by simp, le_refl _, by simp, ?_⟩
        intro x hx
        simp only [List.mem_append, List.mem_singleton] at hx
        rcases hx with (((hx | hx) | hx) | hx) | hx
        · exact htr x hx
        all_goals (subst hx; rfl)
    · have hstep : step K s (Event.ticks_expiry jf) = s := by simp [step, hp]
      rw [hstep]
      exact ⟨hmax, hc0, ht, hs, hl0, hl1, htr⟩
  | sequence_expiry =>
    by_cases hp : s.sequence_timer.pending = true
    · have hl2 : s.ticks_output_buffer_len < M := by
        have := hs.mp hp
        omega
      have hinc : int_incr s.ticks_output_buffer_len = s.ticks_output_buffer_len + 1 :=
        int_incr_of_range _ (by omega) (by omega)
      have hinc2 : int_incr (s.ticks_output_buffer_len + 1) = s.ticks_output_buffer_len + 2 := by
        rw [int_incr_of_range _ (by omega) (by omega)]; omega
      simp only [step, hp, if_true, sequence_sequence_finished, append_char, store, hinc, hinc2]
      refine ⟨hmax, hc0, ht, by simp, le_refl _, by simp, ?_⟩
      intro x hx
      simp only [List.mem_append, List.mem_singleton] at hx
      rcases hx with ((hx | hx) | hx) | hx
      · exact htr x hx
      all_goals (subst hx; rfl)
    · have hstep : step K s Event.sequence_expiry = s := by simp [step, hp]
      rw [hstep]
      exact ⟨hmax, hc0, ht, hs, hl0, hl1, htr⟩

/-- The overflow check of a run splits at its first event. -/
theorem no_overflow_cons (K : Kernel) (s : State) (e : Event) (evs : List Event) :
    no_overflow K s (e :: evs) = (no_overflow K s [e] && no_overflow K (step K s e) evs) := by
  cases e <;> simp [no_overflow]

/-- The timer invariant holds along every run without overflow of
`ticks_count`. -/
theorem run_timer_inv (K : Kernel) (M : Int) (hM : M ≤ MAXIMUM_NUMBER_LEN) (evs : List Event) :
    ∀ s : State, no_overflow K s evs = true →
      s.max_number_len = M → 0 ≤ s.ticks_count →
      (s.ticks_timer.pending = true ↔ 0 < s.ticks_count) →
      (s.sequence_timer.pending = true ↔ 1 ≤ s.ticks_output_buffer_len) →
      0 ≤ s.ticks_output_buffer_len →
      (s.ticks_output_buffer_len = 0 ∨ s.ticks_output_buffer_len < M) →
      (∀ x ∈ s.trace, arm_ok x = true) →
      ((run K s evs).ticks_timer.pending = true ↔ 0 < (run K s evs).ticks_count) ∧
      ((run K s evs).sequence_timer.pending = true ↔ 1 ≤ (run K s evs).ticks_output_buffer_len) ∧
      ∀ x ∈ (run K s evs).trace, arm_ok x = true := by
  induction evs with
  | nil => intro s _ _ _ ht hs _ _ htr; exact ⟨ht, hs, htr⟩
  | cons e evs ih =>
    intro s hno hmax hc0 ht hs hl0 hl1 htr
    rw [no_overflow_cons, Bool.and_eq_true] at hno
    obtain ⟨a1, a2, a3, a4, a5, a6, a7⟩ :=
      step_timer_inv K M s e hM hno.1 hmax hc0 ht hs hl0 hl1 htr
    rw [run_cons]
    exact ih (step K s e) hno.2 a1 a2 a3 a4 a5 a6 a7

/-- C10 (as stated) fails: `2 ^ 31` accepted edges in a row, with no expiry in
between, are a run from the initial state after which the digit timer is
queued while `ticks_count`, wrapped to `-2 ^ 31`, is not positive. -/
theorem timers_track_counters_counterexample :
    (run kernel_100 (init_state 20 (zero_mem 20))
      (edges (train 0 2147483648))).ticks_timer.pending = true ∧
    ¬ (0 < (run kernel_100 (init_state 20 (zero_mem 20))
      (edges (train 0 2147483648))).ticks_count) := by
  have hacc := train_accepted kernel_100 2147483648 0 (init_state 20 (zero_mem 20)) rfl
  have hlen := train_length 2147483648 0
  generalize train 0 2147483648 = tr at hacc hlen ⊢
  have hne : tr ≠ [] := by
    intro h
    rw [h] at hlen
    exact absurd hlen (by decide)
  obtain ⟨e1, e2, -⟩ := run_edges_accepted kernel_100 tr (init_state 20 (zero_mem 20)) rfl hacc
  refine ⟨e2 hne, ?_⟩
  rw [e1, hlen]
  decide

/-- C10 (amended): in every state reached from the initial state (with
`max_number_len ≤ 60`) by edge events, digit-timer expiries and
sequence-timer expiries (an expiry takes place only while its timer is
queued), along a run in which every accepted edge meets `ticks_count <
INT_MAX`, the digit timer is queued exactly when `ticks_count > 0` and the
sequence timer exactly when `ticks_output_buffer_len ≥ 1`; every `init_timer`
(the fresh arm with `add_timer`) so far ran on a timer that was not queued
and every `mod_timer` on one that was. -/
theorem timers_track_counters (K : Kernel) (M : Int) (mem : List Nat) (evs : List Event)
    (hM : M ≤ MAXIMUM_NUMBER_LEN)
    (hno : no_overflow K (init_state M mem) evs = true) :
    ((run K (init_state M mem) evs).ticks_timer.pending = true ↔
      0 < (run K (init_state M mem) evs).ticks_count) ∧
    ((run K (init_state M mem) evs).sequence_timer.pending = true ↔
      1 ≤ (run K (init_state M mem) evs).ticks_output_buffer_len) ∧
    ∀ x ∈ (run K (init_state M mem) evs).trace, arm_ok x = true :=
  run_timer_inv K M hM evs (init_state M mem) hno rfl (by simp [init_state])
    (by simp [init_state]) (by simp [init_state]) (by simp [init_state])
    (Or.inl rfl) (by simp [init_state])

/-- Witness for C10: a run that ends inside the second digit. -/
theorem timers_track_counters_witness :
    no_overflow kernel_100 (init_state 20 (zero_mem 20))
      [Event.edge 100 10, Event.edge 200 20, Event.ticks_expiry 70, Event.edge 1000 100] = true ∧
    ((run kernel_100 (init_state 20 (zero_mem 20))
      [Event.edge 100 10, Event.edge 200 20, Event.ticks_expiry 70,
        Event.edge 1000 100]).sequence_timer.pending = true ↔
      1 ≤ (run kernel_100 (init_state 20 (zero_mem 20))
        [Event.edge 100 10, Event.edge 200 20, Event.ticks_expiry 70,
          Event.edge 1000 100]).ticks_output_buffer_len) :=
  ⟨by decide,
   (timers_track_counters kernel_100 20 (zero_mem 20)
      [Event.edge 100 10, Event.edge 200 20, Event.ticks_expiry 70, Event.edge 1000 100]
      (by decide) (by decide)).2.1⟩

/-! ## The read path, startup and clock -/

/-- The read path never changes the decoder state. -/
theorem device_read_state (K : Kernel) (s : State) (beyond : List Nat) (not_copied : Nat) :
    (device_read K s beyond not_copied).state = s := rfl

/-- A read of a block that holds no NUL goes on into the memory after it: with
24 bytes `'1'` in the block and six bytes `'2'` and a NUL after it,
`device_read` delivers all 30 bytes and returns 30. -/
theorem device_read_past_block :
    (device_read kernel_100 (init_state 20 (List.replicate 24 49))
      [50, 50, 50, 50, 50, 50, 0, 7] 0).ret = 30 ∧
    (device_read kernel_100 (init_state 20 (List.replicate 24 49))
      [50, 50, 50, 50, 50, 50, 0, 7] 0).user =
        List.replicate 24 49 ++ List.replicate 6 50 := by
  decide

/-- On a build with 64-bit `ssize_t` the error value is lost: when
`copy_to_user` reports a byte it could not copy of the published `"2\n"`,
`device_read` returns `4294967282`, the `unsigned int` image of `-EFAULT`; the
same call on a 32-bit build returns `-EFAULT`. -/
theorem device_read_ret_on_64_bit :
    (device_read kernel_64 (run kernel_64 (init_state 20 (zero_mem 20))
      [Event.edge 100 10, Event.edge 200 20, Event.ticks_expiry 70,
        Event.sequence_expiry]) [] 1).ret = 4294967282 ∧
    (device_read kernel_100 (run kernel_100 (init_state 20 (zero_mem 20))
      [Event.edge 100 10, Event.edge 200 20, Event.ticks_expiry 70,
        Event.sequence_expiry]) [] 1).ret = -EFAULT := by
  decide

/-- C11: for every decoder state and every outcome of the transfer, on the
32-bit target of the driver (`ssize_t` is the 32-bit `int`; the string that
starts at the buffer is shorter than `2 ^ 31` bytes), `device_read` leaves
`ticks_count`, `last_interrupt_time`, `ticks_output_buffer`,
`ticks_output_buffer_len`, `max_number_len` and both timers unchanged; it
returns `-EFAULT` exactly when `copy_to_user` reports bytes it could not
copy, and otherwise the number of bytes delivered, which are the bytes from
the start of the buffer up to the first NUL. -/
theorem device_read_frame_and_return (K : Kernel) (s : State) (beyond : List Nat)
    (not_copied : Nat)
    (hK : K.BITS_PER_LONG = 32)
    (hlen : strlen (s.ticks_output_buffer ++ beyond) < 2147483648) :
    (device_read K s beyond not_copied).state.ticks_count = s.ticks_count ∧
    (device_read K s beyond not_copied).state.last_interrupt_time = s.last_interrupt_time ∧
    (device_read K s beyond not_copied).state.ticks_output_buffer = s.ticks_output_buffer ∧
    (device_read K s beyond not_copied).state.ticks_output_buffer_len =
      s.ticks_output_buffer_len ∧
    (device_read K s beyond not_copied).state.ticks_timer = s.ticks_timer ∧
    (device_read K s beyond not_copied).state.sequence_timer = s.sequence_timer ∧
    (device_read K s beyond not_copied).state = s ∧
    ((device_read K s beyond not_copied).ret = -EFAULT ↔ not_copied ≠ 0) ∧
    (not_copied = 0 →
      (device_read K s beyond not_copied).ret =
        ((device_read K s beyond not_copied).user.length : Int) ∧
      (device_read K s beyond not_copied).user =
        (s.ticks_output_buffer ++ beyond).takeWhile (fun b => b != 0)) := by
  refine ⟨rfl, rfl, rfl, rfl, rfl, rfl, rfl, ?_⟩
  have hle : strlen (s.ticks_output_buffer ++ beyond) ≤
      (s.ticks_output_buffer ++ beyond).length := by
    unfold strlen
    exact (List.takeWhile_sublist _).length_le
  have hmod : strlen (s.ticks_output_buffer ++ beyond) % 4294967296 =
      strlen (s.ticks_output_buffer ++ beyond) := by
    omega
  have hK64 : ¬ K.BITS_PER_LONG = 64 := by omega
  have htake : ∀ l : List Nat, l.take (strlen l) = l.takeWhile (fun b => b != 0) := by
    intro l
    unfold strlen
    induction l with
    | nil => rfl
    | cons a l ih =>
      by_cases ha : (a != 0) = true
      · simp only [List.takeWhile_cons, ha, if_true, List.length_cons, List.take_succ_cons, ih]
      · simp [List.takeWhile_cons, ha]
  unfold device_read ssize_of_uint
  simp only [hK64, if_false, hmod]
  by_cases hn : not_copied = 0
  · subst hn
    simp only [ne_eq, not_true_eq_false, if_false, Nat.sub_zero, List.length_take]
    unfold wrap_int EFAULT
    refine ⟨?_, fun _ => ⟨?_, htake _⟩⟩
    · constructor
      · intro h; omega
      · intro h; exact absurd h (by simp)
    · omega
  · simp only [ne_eq, hn, not_false_eq_true, if_true]
    refine ⟨⟨fun _ => by simp, fun _ => by decide⟩, fun h => by simp at h⟩

/-- Witness for C11: reads of the published `"2\n"`, one whose transfer leaves
a byte uncopied and one whose transfer succeeds. -/
theorem device_read_frame_and_return_witness :
    ((device_read kernel_100 (run kernel_100 (init_state 20 (zero_mem 20))
      [Event.edge 100 10, Event.edge 200 20, Event.ticks_expiry 70,
        Event.sequence_expiry]) [] 1).ret = -EFAULT ↔ 1 ≠ 0) ∧
    (device_read kernel_100 (run kernel_100 (init_state 20 (zero_mem 20))
      [Event.edge 100 10, Event.edge 200 20, Event.ticks_expiry 70,
        Event.sequence_expiry]) [] 0).ret = 2 :=
  ⟨(device_read_frame_and_return kernel_100 (run kernel_100 (init_state 20 (zero_mem 20))
      [Event.edge 100 10, Event.edge 200 20, Event.ticks_expiry 70, Event.sequence_expiry])
      [] 1 rfl (by decide)).2.2.2.2.2.2.2.1,
   by decide⟩

/-- The size requested from `kmalloc` for a clamped `max_number_len`: the
value `max_number_len + 4` itself when it is not negative, and otherwise a
size of at least half the address space. -/
theorem size_t_of_request (K : Kernel) (m : Int) (hK : 32 ≤ K.BITS_PER_LONG)
    (hm0 : -2147483648 ≤ m) (hm1 : m ≤ 60) :
    (0 ≤ m + 4 → (size_t_of K (wrap_int (m + 4)) : Int) = m + 4) ∧
    (m + 4 < 0 → 2 ^ K.BITS_PER_LONG ≤ 2 * size_t_of K (wrap_int (m + 4))) := by
  have hw : wrap_int (m + 4) = m + 4 := by unfold wrap_int; omega
  have hP : (4294967296 : Nat) ≤ 2 ^ K.BITS_PER_LONG := by
    calc (4294967296 : Nat) = 2 ^ 32 := by norm_num
      _ ≤ 2 ^ K.BITS_PER_LONG := Nat.pow_le_pow_right (by norm_num) hK
  have hPi : (4294967296 : Int) ≤ ((2 ^ K.BITS_PER_LONG : Nat) : Int) := by exact_mod_cast hP
  rw [hw]
  unfold size_t_of
  constructor
  · intro h
    have h1 : (m + 4) % (2 : Int) ^ K.BITS_PER_LONG = m + 4 := by
      apply Int.emod_eq_of_lt h
      push_cast at hPi
      omega
    rw [h1]
    omega
  · intro h
    have h1 : (m + 4) % (2 : Int) ^ K.BITS_PER_LONG = m + 4 + (2 : Int) ^ K.BITS_PER_LONG := by
      rw [← Int.add_emod_self]
      apply Int.emod_eq_of_lt
      · push_cast at hPi; omega
      · omega
    rw [h1]
    push_cast at hPi
    have h2 : 0 ≤ m + 4 + (2 : Int) ^ K.BITS_PER_LONG := by omega
    have h3 : (((m + 4 + (2 : Int) ^ K.BITS_PER_LONG).toNat : Nat) : Int) =
        m + 4 + (2 : Int) ^ K.BITS_PER_LONG := Int.toNat_of_nonneg h2
    have : ((2 ^ K.BITS_PER_LONG : Nat) : Int) ≤
        ((2 * (m + 4 + (2 : Int) ^ K.BITS_PER_LONG).toNat : Nat) : Int) := by
      push_cast
      rw [h3]
      omega
    exact_mod_cast this

/-- C12: for every configured value `c` of the `int` parameter
`max_number_len` (default 20), on a build with `BITS_PER_LONG` at least 32 and
an allocator that returns blocks of the size requested, after an `r_init`
that returns 0 the effective `max_number_len` is `min c 60` (exactly 60 for
values above 60, unchanged for values at or below 60) and the buffer of the
decoder state put in service is the block allocated, of `max_number_len + 4`
bytes. -/
theorem r_init_clamps_max_number_len (K : Kernel) (c : Int) (E : Startup)
    (hK : 32 ≤ K.BITS_PER_LONG)
    (hc0 : -2147483648 ≤ c)
    (hs : kmalloc_sound K E.kmalloc)
    (hret : (r_init K c E).ret = 0) :
    (r_init K c E).max_number_len = min c MAXIMUM_NUMBER_LEN ∧
    (MAXIMUM_NUMBER_LEN < c → (r_init K c E).max_number_len = MAXIMUM_NUMBER_LEN) ∧
    (c ≤ MAXIMUM_NUMBER_LEN → (r_init K c E).max_number_len = c) ∧
    ∃ mem, (r_init K c E).state = some (init_state (r_init K c E).max_number_len mem) ∧
      (mem.length : Int) = (r_init K c E).max_number_len + 4 ∧
      (r_init K c E).request = some mem.length := by
  unfold MAXIMUM_NUMBER_LEN at *
  have hm : (if c > 60 then (60 : Int) else c) = min c 60 := by
    split
    · rw [min_eq_right (by omega)]
    · rw [min_eq_left (by omega)]
  have hm0 : -2147483648 ≤ min c 60 := by
    rcases le_total c 60 with h | h
    · rw [min_eq_left h]; exact hc0
    · rw [min_eq_right h]; omega
  have hm1 : min c 60 ≤ 60 := min_le_right _ _
  obtain ⟨q1, q2⟩ := size_t_of_request K (min c 60) hK hm0 hm1
  by_cases h1 : (r_int_config E).1 = true
  · by_cases h2 : (device_config E).1 ≥ 0
    · cases hk : E.kmalloc (size_t_of K (wrap_int (min c 60 + 4))) with
      | none =>
        simp [r_init, h1, h2, hm, hk, MAXIMUM_NUMBER_LEN] at hret
      | some mem =>
        obtain ⟨k1, k2⟩ := hs _ _ hk
        have hnn : 0 ≤ min c 60 + 4 := by
          by_contra hneg
          have := q2 (by omega)
          omega
        have hq := q1 hnn
        simp only [r_init, h1, h2, hm, Nat.mul_one, hk, MAXIMUM_NUMBER_LEN, if_true, ge_iff_le]
        refine ⟨trivial, ?_, ?_, mem, rfl, ?_, ?_⟩
        · intro h; exact min_eq_right (by omega)
        · intro h; exact min_eq_left h
        · rw [k1, hq]
        · rw [k1]
    · simp [r_init, h1, h2] at hret
  · simp [r_init, h1] at hret

/-- The allocator `kmalloc_zero` is sound on a 32-bit build. -/
theorem kmalloc_zero_sound : kmalloc_sound kernel_100 kmalloc_zero := by
  intro n mem h
  unfold kmalloc_zero at h
  by_cases hn : n ≤ 4194304
  · simp only [hn, if_true, Option.some.injEq] at h
    subst h
    refine ⟨List.length_replicate _ _, ?_⟩
    show 2 * n < 2 ^ 32
    omega
  · simp [hn] at h

/-- Witness for C12: the configured value 100 on a startup in which every call
succeeds is clamped to 60, with a block of 64 bytes. -/
theorem r_init_clamps_max_number_len_witness :
    (r_init kernel_100 100 startup_ok).ret = 0 ∧
    (r_init kernel_100 100 startup_ok).max_number_len = min 100 MAXIMUM_NUMBER_LEN ∧
    (r_init kernel_100 default_max_number_len startup_ok).max_number_len = 20 ∧
    (r_init kernel_100 100 startup_ok).request = some 64 :=
  ⟨by decide,
   (r_init_clamps_max_number_len kernel_100 100 startup_ok (by decide) (by decide)
      kmalloc_zero_sound (by decide)).1,
   by decide, by decide⟩

/-- When `r_init` returns 0, the mapping of the GPIO to an IRQ gave a
non-negative `short` value, `request_irq` and `register_chrdev` succeeded and
`kmalloc` returned a block; the outcome of `gpio_request` plays no part. -/
theorem r_init_success_steps (K : Kernel) (c : Int) (E : Startup)
    (hret : (r_init K c E).ret = 0) :
    0 ≤ to_short E.gpio_to_irq ∧ E.request_irq = 0 ∧ 0 ≤ E.register_chrdev ∧
    (r_init K c E).state ≠ none := by
  by_cases h1 : (r_int_config E).1 = true
  · by_cases h2 : (device_config E).1 ≥ 0
    · have hic : 0 ≤ to_short E.gpio_to_irq ∧ E.request_irq = 0 := by
        unfold r_int_config at h1
        by_cases ha : to_short E.gpio_to_irq < 0
        · simp [ha] at h1
        · by_cases hb : E.request_irq ≠ 0
          · simp [ha, hb] at h1
          · exact ⟨by omega, by simpa using hb⟩
      have hdc : 0 ≤ E.register_chrdev := by
        unfold device_config at h2
        by_cases ha : E.register_chrdev < 0
        · simp only [ha, if_true] at h2; omega
        · omega
      refine ⟨hic.1, hic.2, hdc, ?_⟩
      cases hk : E.kmalloc (size_t_of K
          (wrap_int ((if c > MAXIMUM_NUMBER_LEN then MAXIMUM_NUMBER_LEN else c) + 4))) with
      | none => simp [r_init, h1, h2, hk] at hret
      | some mem => simp [r_init, h1, h2, hk]
    · simp [r_init, h1, h2] at hret
  · simp [r_init, h1] at hret

/-- The function `r_init` never releases anything, whatever its outcome. -/
theorem r_init_releases_nothing (K : Kernel) (c : Int) (E : Startup) :
    ∀ op ∈ (r_init K c E).ops, ∃ r, op = ResOp.acquire r := by
  have hic : ∀ op ∈ (r_int_config E).2.2, ∃ r, op = ResOp.acquire r := by
    intro op hop
    unfold r_int_config at hop
    by_cases hg : E.gpio_request ≠ 0 <;> by_cases ha : to_short E.gpio_to_irq < 0 <;>
      by_cases hb : E.request_irq ≠ 0 <;> simp [hg, ha, hb] at hop <;> aesop
  have hdc : ∀ op ∈ (device_config E).2.2, ∃ r, op = ResOp.acquire r := by
    intro op hop
    unfold device_config at hop
    by_cases ha : E.register_chrdev < 0 <;> simp [ha] at hop
    exact ⟨_, hop⟩
  intro op hop
  unfold r_init at hop
  by_cases h1 : (r_int_config E).1 = true
  · by_cases h2 : (device_config E).1 ≥ 0
    · cases hk : E.kmalloc (size_t_of K
          (wrap_int ((if c > MAXIMUM_NUMBER_LEN then MAXIMUM_NUMBER_LEN else c) + 4))) with
      | none =>
        simp only [h1, h2, Nat.mul_one, hk, if_true, List.mem_append] at hop
        rcases hop with hop | hop
        · exact hic op hop
        · exact hdc op hop
      | some mem =>
        simp only [h1, h2, Nat.mul_one, hk, if_true, List.mem_append, List.mem_singleton] at hop
        rcases hop with (hop | hop) | hop
        · exact hic op hop
        · exact hdc op hop
        · exact ⟨_, hop⟩
    · simp only [h1, h2, if_true, if_false, List.mem_append] at hop
      rcases hop with hop | hop
      · exact hic op hop
      · exact hdc op hop
  · simp only [h1, if_false] at hop
    exact hic op hop

/-- C13 (code bug): when `gpio_request` fails (here with `-EBUSY`) and every
other startup step succeeds, `r_int_config` only logs the failure and `r_init`
returns 0, with the IRQ handler, the character device and the buffer acquired
and the GPIO line not held. -/
theorem r_init_ignores_gpio_request_failure :
    (r_init kernel_100 20 { startup_ok with gpio_request := -16 }).ret = 0 ∧
    held (r_init kernel_100 20 { startup_ok with gpio_request := -16 }).ops =
      [Resource.irq_handler, Resource.chrdev, Resource.buffer] ∧
    (r_init kernel_100 20 { startup_ok with gpio_to_irq := -22 }).ret = -1 ∧
    (r_init kernel_100 20 { startup_ok with request_irq := -16 }).ret = -1 ∧
    (r_init kernel_100 20 { startup_ok with register_chrdev := -16 }).ret = -1 ∧
    (r_init kernel_100 20 { startup_ok with kmalloc := fun _ => none }).ret = -1 := by
  decide

/-- C14 (code bug): `r_init` returns its failure without releasing anything.
When `gpio_to_irq` fails after a successful `gpio_request`, the GPIO line is
still held on return; when `kmalloc` fails, the GPIO line, the IRQ handler and
the character device are all still held.  The exit path `r_cleanup` does
release them. -/
theorem r_init_failure_leaves_resources_held :
    (r_init kernel_100 20 { startup_ok with gpio_to_irq := -22 }).ret = -1 ∧
    held (r_init kernel_100 20 { startup_ok with gpio_to_irq := -22 }).ops =
      [Resource.gpio_line] ∧
    (r_init kernel_100 20 { startup_ok with register_chrdev := -16 }).ret = -1 ∧
    held (r_init kernel_100 20 { startup_ok with register_chrdev := -16 }).ops =
      [Resource.gpio_line, Resource.irq_handler] ∧
    (r_init kernel_100 20 { startup_ok with kmalloc := fun _ => none }).ret = -1 ∧
    held (r_init kernel_100 20 { startup_ok with kmalloc := fun _ => none }).ops =
      [Resource.gpio_line, Resource.irq_handler, Resource.chrdev] ∧
    held ((r_init kernel_100 20 startup_ok).ops ++ r_cleanup) = [] := by
  decide

/-- C19 (code bug): the configured value `max_number_len = -3` passes `r_init`,
which allocates a block of `-3 + 4 = 1` byte; the first expiry of the digit
timer then appends no digit and publishes at once, storing the newline at
index 0 and the NUL at index 1, outside the block. -/
theorem store_outside_one_byte_block :
    (r_init kernel_100 (-3) startup_ok).ret = 0 ∧
    (r_init kernel_100 (-3) startup_ok).request = some 1 ∧
    (r_init kernel_100 (-3) startup_ok).state = some (init_state (-3) [0]) ∧
    alloc_size (-3) = 1 ∧
    stores (run kernel_100 (init_state (-3) [0])
      [Event.edge 100 10, Event.ticks_expiry 60]).trace = [(0, 10), (1, 0)] ∧
    ¬ ((1 : Int) < -3 + 4) := by
  decide

/-- Once `epochMilli` is set, `millis` keeps it and returns the offset of the
current millisecond from it, truncated to 32 bits. -/
theorem millis_calls_anchored (ep : Nat) (hep : ep ≠ 0) (cs : List Nat) :
    (∀ c ∈ cs, c < 18446744073709551616 ∧ ep ≤ c / 1000000) →
    millis_calls cs ep = cs.map (fun c => (c / 1000000 - ep) % 4294967296) := by
  induction cs with
  | nil => intro _; rfl
  | cons c cs ih =>
    intro h
    obtain ⟨h1, h2⟩ := h c (List.mem_cons_self _ _)
    have hm : millis c ep = ((c / 1000000 - ep) % 4294967296, ep) := by
      unfold millis u64_sub
      simp only [hep, if_false, Nat.mod_eq_of_lt h1]
      have : (c / 1000000 + 18446744073709551616 - ep % 18446744073709551616) %
          18446744073709551616 = c / 1000000 - ep := by omega
      rw [this]
    simp only [millis_calls, hm, List.map_cons]
    rw [ih (fun x hx => h x (List.mem_cons_of_mem _ hx))]

/-- C16 (code bug): `millis` tests `if(!epochMilli)`, so an epoch of 0 ms counts
as not yet set.  With `sched_clock` readings of 0.5 ms, 5 ms and 7 ms the first
call leaves `epochMilli` at 0, the second call takes the epoch again, at 5 ms,
and the values returned are 0, 0, 2, not the offsets 0, 5, 7 from the first
reading. -/
theorem millis_epoch_reestablished :
    (millis 500000 0).2 = 0 ∧
    (millis 5000000 (millis 500000 0).2).2 = 5 ∧
    millis_calls [500000, 5000000, 7000000] 0 = [0, 0, 2] ∧
    [500000, 5000000, 7000000].map
      (fun c => (c / 1000000 - 500000 / 1000000) % 4294967296) = [0, 5, 7] := by
  decide

/-- When the first reading is at least one millisecond (`10 ^ 6` ns) the epoch
is taken once: for every non-decreasing sequence of 64-bit `sched_clock`
readings `c0, c1, ...` with `10 ^ 6 ≤ c0`, the first call of `millis` returns 0
and fixes the epoch, and call `i` returns `ci / 10 ^ 6 - c0 / 10 ^ 6` truncated
to 32 bits; the values returned are non-decreasing as long as the offsets stay
below `2 ^ 32`.  The first call returns 0 whatever the first reading is. -/
theorem millis_offsets (c0 : Nat) (cs : List Nat)
    (hfirst : 1000000 ≤ c0)
    (hmono : (c0 :: cs).Pairwise (fun a b => a ≤ b))
    (h64 : ∀ c ∈ c0 :: cs, c < 18446744073709551616) :
    (∀ c, (millis c 0).1 = 0) ∧
    (millis c0 0).2 = c0 / 1000000 ∧
    millis_calls (c0 :: cs) 0 =
      (c0 :: cs).map (fun c => (c / 1000000 - c0 / 1000000) % 4294967296) ∧
    ((∀ c ∈ cs, c / 1000000 - c0 / 1000000 < 4294967296) →
      (millis_calls (c0 :: cs) 0).Pairwise (fun a b => a ≤ b)) := by
  have hzero : ∀ c, (millis c 0).1 = 0 := by
    intro c
    unfold millis u64_sub
    simp only [if_true]
    omega
  have h0 := h64 c0 (List.mem_cons_self _ _)
  have hep : c0 / 1000000 ≠ 0 := by omega
  have hm : millis c0 0 = (0, c0 / 1000000) := by
    have h1 := hzero c0
    have h2 : (millis c0 0).2 = c0 / 1000000 := by
      unfold millis
      simp only [if_true, Nat.mod_eq_of_lt h0]
    exact Prod.ext h1 h2
  rw [List.pairwise_cons] at hmono
  have hge : ∀ c ∈ cs, c < 18446744073709551616 ∧ c0 / 1000000 ≤ c / 1000000 := by
    intro c hc
    exact ⟨h64 c (List.mem_cons_of_mem _ hc), Nat.div_le_div_right (hmono.1 c hc)⟩
  have hcalls : millis_calls (c0 :: cs) 0 =
      (c0 :: cs).map (fun c => (c / 1000000 - c0 / 1000000) % 4294967296) := by
    simp only [millis_calls, hm, List.map_cons, Nat.sub_self, Nat.zero_mod]
    rw [millis_calls_anchored _ hep cs hge]
  refine ⟨hzero, by rw [hm], hcalls, ?_⟩
  intro hlt
  rw [hcalls, List.map_cons, List.pairwise_cons]
  constructor
  · intro b hb
    simp
  · rw [List.pairwise_map]
    refine hmono.2.imp_of_mem ?_
    intro a b ha hb hab
    have ha1 := hlt a ha
    have hb1 := hlt b hb
    rw [Nat.mod_eq_of_lt ha1, Nat.mod_eq_of_lt hb1]
    have := Nat.div_le_div_right (c := 1000000) hab
    omega

/-- The offsets of readings at 5 s, 5.0004 s, 5.07 s and 9 s. -/
theorem millis_offsets_witness :
    millis_calls (5000000000 :: [5000400000, 5070000000, 9000000000]) 0 =
      (5000000000 :: [5000400000, 5070000000, 9000000000]).map
        (fun c => (c / 1000000 - 5000000000 / 1000000) % 4294967296) ∧
    millis_calls [5000000000, 5000400000, 5070000000, 9000000000] 0 = [0, 0, 70, 4000] :=
  ⟨(millis_offsets 5000000000 [5000400000, 5070000000, 9000000000] (by decide) (by decide)
      (by decide)).2.2.1, by decide⟩

/-- The publication always resets the length and keeps the configuration. -/
theorem sequence_sequence_finished_len (s : State) :
    (sequence_sequence_finished s).ticks_output_buffer_len = 0 ∧
    (sequence_sequence_finished s).max_number_len = s.max_number_len ∧
    (sequence_sequence_finished s).ticks_count = s.ticks_count ∧
    (sequence_sequence_finished s).ticks_timer = s.ticks_timer ∧
    (sequence_sequence_finished s).last_interrupt_time = s.last_interrupt_time := by
  simp [sequence_sequence_finished, append_char, store]

/-- An expiry of the queued digit timer in a state with room in the buffer
takes the guarded branch: its first store is the digit, at the old length, and
the length stays below `max_number_len`. -/
theorem step_ticks_expiry_appends (K : Kernel) (jf : Nat) (s : State)
    (hp : s.ticks_timer.pending = true)
    (h0 : 0 ≤ s.ticks_output_buffer_len)
    (hlt : s.ticks_output_buffer_len < s.max_number_len)
    (hmax : s.max_number_len ≤ INT_MAX) :
    (∃ rest, stores (step K s (Event.ticks_expiry jf)).trace =
      stores s.trace ++
        (s.ticks_output_buffer_len, to_char (48 + Int.tmod s.ticks_count 10)) :: rest) ∧
    (step K s (Event.ticks_expiry jf)).max_number_len = s.max_number_len ∧
    0 ≤ (step K s (Event.ticks_expiry jf)).ticks_output_buffer_len ∧
    (step K s (Event.ticks_expiry jf)).ticks_output_buffer_len < s.max_number_len := by
  by_cases hroom : s.ticks_output_buffer_len + 1 < s.max_number_len
  · obtain ⟨-, -, f3, f4, -, -, f7, -⟩ := step_ticks_expiry_room K jf s hp h0 hroom hmax
    exact ⟨⟨[], f7⟩, f3, by rw [f4]; omega, by rw [f4]; exact hroom⟩
  · have hinc : int_incr s.ticks_output_buffer_len = s.ticks_output_buffer_len + 1 :=
      int_incr_of_range _ (by omega) (by unfold INT_MAX at hmax; omega)
    have hge : s.ticks_output_buffer_len + 1 ≥ s.max_number_len := by omega
    rw [step_ticks_expiry_pending K jf s hp]
    unfold ticks_sequence_finished
    simp only [hlt, if_true, append_char, store, hinc, hge]
    refine ⟨⟨[(s.ticks_output_buffer_len + 1, to_char 10),
        (int_incr (s.ticks_output_buffer_len + 1), to_char 0)], ?_⟩, ?_, ?_, ?_⟩
    · simp [sequence_sequence_finished, append_char, store, stores_append, stores]
    · simp [sequence_sequence_finished, append_char, store]
    · simp [sequence_sequence_finished, append_char, store]
    · simp [sequence_sequence_finished, append_char, store]; omega

/-- One event keeps `0 ≤ ticks_output_buffer_len < max_number_len`, for every
positive `int` value of `max_number_len`. -/
theorem step_len_inv (K : Kernel) (s : State) (e : Event)
    (hmax : s.max_number_len ≤ INT_MAX)
    (h0 : 0 ≤ s.ticks_output_buffer_len)
    (h1 : s.ticks_output_buffer_len < s.max_number_len) :
    (step K s e).max_number_len = s.max_number_len ∧
    0 ≤ (step K s e).ticks_output_buffer_len ∧
    (step K s e).ticks_output_buffer_len < s.max_number_len := by
  cases e with
  | edge t j =>
    obtain ⟨-, g2, g3, -, -⟩ := r_irq_handler_frame K t j s
    show (r_irq_handler K t j s).max_number_len = s.max_number_len ∧
      0 ≤ (r_irq_handler K t j s).ticks_output_buffer_len ∧
      (r_irq_handler K t j s).ticks_output_buffer_len < s.max_number_len
    rw [g2, g3]
    exact ⟨rfl, h0, h1⟩
  | ticks_expiry jf =>
    by_cases hp : s.ticks_timer.pending = true
    · exact (step_ticks_expiry_appends K jf s hp h0 h1 hmax).2
    · have hstep : step K s (Event.ticks_expiry jf) = s := by simp [step, hp]
      rw [hstep]
      exact ⟨rfl, h0, h1⟩
  | sequence_expiry =>
    by_cases hp : s.sequence_timer.pending = true
    · have hstep : step K s Event.sequence_expiry = sequence_sequence_finished
          { s with sequence_timer := { s.sequence_timer with pending := false } } := by
        simp [step, hp]
      rw [hstep]
      obtain ⟨f1, f2, -⟩ := sequence_sequence_finished_len
        { s with sequence_timer := { s.sequence_timer with pending := false } }
      rw [f1, f2]
      exact ⟨rfl, le_refl _, by omega⟩
    · have hstep : step K s Event.sequence_expiry = s := by simp [step, hp]
      rw [hstep]
      exact ⟨rfl, h0, h1⟩

/-- The length invariant holds along every run. -/
theorem run_len_inv (K : Kernel) (evs : List Event) :
    ∀ s : State, s.max_number_len ≤ INT_MAX → 0 ≤ s.ticks_output_buffer_len →
      s.ticks_output_buffer_len < s.max_number_len →
      (run K s evs).max_number_len = s.max_number_len ∧
      0 ≤ (run K s evs).ticks_output_buffer_len ∧
      (run K s evs).ticks_output_buffer_len < s.max_number_len := by
  induction evs with
  | nil => intro s _ h0 h1; exact ⟨rfl, h0, h1⟩
  | cons e evs ih =>
    intro s hmax h0 h1
    obtain ⟨a1, a2, a3⟩ := step_len_inv K s e hmax h0 h1
    rw [run_cons]
    obtain ⟨b1, b2, b3⟩ := ih (step K s e) (by rw [a1]; exact hmax) a2 (by rw [a1]; exact a3)
    rw [a1] at b1 b3
    exact ⟨b1, b2, b3⟩

/-- C17: for every `int` value `max_number_len ≥ 1`, in every state reached
from the initial state by edge, digit-expiry and sequence-expiry events,
`0 ≤ ticks_output_buffer_len < max_number_len`; hence the guard at the top of
`ticks_sequence_finished` holds whenever the digit timer fires, the firing
stores its digit at the current length before anything else, and the branch
without the append is not taken. -/
theorem digit_guard_always_true (K : Kernel) (M : Int) (mem : List Nat) (evs : List Event)
    (jf : Nat) (hM1 : 1 ≤ M) (hM2 : M ≤ INT_MAX) :
    (run K (init_state M mem) evs).max_number_len = M ∧
    0 ≤ (run K (init_state M mem) evs).ticks_output_buffer_len ∧
    (run K (init_state M mem) evs).ticks_output_buffer_len <
      (run K (init_state M mem) evs).max_number_len ∧
    ((run K (init_state M mem) evs).ticks_timer.pending = true →
      ∃ rest, stores (run K (init_state M mem) (evs ++ [Event.ticks_expiry jf])).trace =
        stores (run K (init_state M mem) evs).trace ++
          ((run K (init_state M mem) evs).ticks_output_buffer_len,
            to_char (48 + Int.tmod (run K (init_state M mem) evs).ticks_count 10)) :: rest) := by
  obtain ⟨b1, b2, b3⟩ := run_len_inv K evs (init_state M mem) hM2 (le_refl _)
    (by show (0 : Int) < M; omega)
  have b1M : (run K (init_state M mem) evs).max_number_len = M := b1
  have b3M : (run K (init_state M mem) evs).ticks_output_buffer_len < M := b3
  refine ⟨b1M, b2, by rw [b1M]; exact b3M, ?_⟩
  intro hp
  rw [run_append]
  exact (step_ticks_expiry_appends K jf _ hp b2 (by rw [b1M]; exact b3M)
    (by rw [b1M]; exact hM2)).1

/-- Witness for C17: with `max_number_len = 2`, the expiry after a run that
ends inside the second digit. -/
theorem digit_guard_always_true_witness :
    (run kernel_100 (init_state 2 (zero_mem 2))
      [Event.edge 100 10, Event.ticks_expiry 60, Event.edge 1000 100]).ticks_output_buffer_len <
    (run kernel_100 (init_state 2 (zero_mem 2))
      [Event.edge 100 10, Event.ticks_expiry 60, Event.edge 1000 100]).max_number_len :=
  (digit_guard_always_true kernel_100 2 (zero_mem 2)
    [Event.edge 100 10, Event.ticks_expiry 60, Event.edge 1000 100] 150
    (by decide) (by decide)).2.2.1

/-- C18 (as stated) fails: with `HZ = 100`, edges at 100 ms and 3500 ms.  The
first digit is appended at tick 60 and arms the sequence timer for tick 360;
the edge at 3500 ms (tick 350) starts a digit, and the sequence timer fires at
tick 360 while `ticks_count = 1` and the digit timer is queued.  The
publication holds the first digit only; the pulse of 3500 ms is published
with the following sequence, at tick 700. -/
theorem sequence_expiry_during_digit_counterexample :
    (timed_run kernel_100 0 (init_state 20 (zero_mem 20)) [100, 3500] 3590).fired =
      [(60, TimerId.ticks)] ∧
    (timed_run kernel_100 0 (init_state 20 (zero_mem 20)) [100, 3500] 3590).state.ticks_count = 1 ∧
    (timed_run kernel_100 0 (init_state 20 (zero_mem 20)) [100, 3500] 3590).state.ticks_timer =
      { pending := true, expires := 400 } ∧
    (timed_run kernel_100 0 (init_state 20 (zero_mem 20)) [100, 3500] 3590).state.sequence_timer =
      { pending := true, expires := 360 } ∧
    (timed_run kernel_100 0 (init_state 20 (zero_mem 20)) [100, 3500] 3600).fired =
      [(60, TimerId.ticks), (360, TimerId.sequence)] ∧
    (timed_run kernel_100 0 (init_state 20 (zero_mem 20)) [100, 3500] 3600).state.ticks_count = 1 ∧
    (timed_run kernel_100 0 (init_state 20 (zero_mem 20)) [100, 3500]
      3600).state.ticks_timer.pending = true ∧
    (timed_run kernel_100 0 (init_state 20 (zero_mem 20)) [100, 3500]
      3600).state.ticks_output_buffer.take 3 = [49, 10, 0] ∧
    wakeups (timed_run kernel_100 0 (init_state 20 (zero_mem 20)) [100, 3500]
      3600).state.trace = 1 ∧
    (timed_run kernel_100 0 (init_state 20 (zero_mem 20)) [100, 3500] 8000).fired =
      [(60, TimerId.ticks), (360, TimerId.sequence), (400, TimerId.ticks),
        (700, TimerId.sequence)] ∧
    wakeups (timed_run kernel_100 0 (init_state 20 (zero_mem 20)) [100, 3500]
      8000).state.trace = 2 := by
  decide

/-- C18 (amended): the sequence timer can fire while a digit is in progress.
In every state an edge, accepted or not, leaves the sequence timer as it is,
and an expiry of the sequence timer leaves `ticks_count`, the digit timer and
`last_interrupt_time` as they are; when the sequence timer was queued, its
expiry resets `ticks_output_buffer_len` to 0 and wakes the readers once.  When
in addition the digit timer is queued and `1 ≤ max_number_len`, the next expiry
of the digit timer stores the digit of the pulses counted before the
publication at index 0: it is the first digit of the following sequence. -/
theorem sequence_timer_independent_of_digit (K : Kernel) (s : State) (T j : Nat) :
    (r_irq_handler K T j s).sequence_timer = s.sequence_timer ∧
    (step K s Event.sequence_expiry).ticks_count = s.ticks_count ∧
    (step K s Event.sequence_expiry).ticks_timer = s.ticks_timer ∧
    (step K s Event.sequence_expiry).last_interrupt_time = s.last_interrupt_time ∧
    (s.sequence_timer.pending = true →
      (step K s Event.sequence_expiry).ticks_output_buffer_len = 0 ∧
      wakeups (step K s Event.sequence_expiry).trace = wakeups s.trace + 1) ∧
    (s.sequence_timer.pending = true → s.ticks_timer.pending = true →
      1 ≤ s.max_number_len → s.max_number_len ≤ INT_MAX →
      ∀ jf : Nat, ∃ rest,
        stores (step K (step K s Event.sequence_expiry) (Event.ticks_expiry jf)).trace =
          stores (step K s Event.sequence_expiry).trace ++
            (0, to_char (48 + Int.tmod s.ticks_count 10)) :: rest) := by
  refine ⟨(r_irq_handler_frame K T j s).2.2.2.1, ?_⟩
  by_cases hp : s.sequence_timer.pending = true
  · have hstep : step K s Event.sequence_expiry = sequence_sequence_finished
        { s with sequence_timer := { s.sequence_timer with pending := false } } := by
      simp [step, hp]
    obtain ⟨f1, f2, f3, f4, f5⟩ := sequence_sequence_finished_len
      { s with sequence_timer := { s.sequence_timer with pending := false } }
    rw [← hstep] at f1 f2 f3 f4 f5
    refine ⟨f3, f4, f5, fun _ => ⟨f1, ?_⟩, ?_⟩
    · rw [hstep]
      simp [sequence_sequence_finished, append_char, store, wakeups_append, wakeups]
    · intro _ ht h1 hmax jf
      obtain ⟨g, -, -, -⟩ := step_ticks_expiry_appends K jf (step K s Event.sequence_expiry)
        (by rw [f4]; exact ht) (by rw [f1]) (by rw [f1, f2]; exact h1) (by rw [f2]; exact hmax)
      rw [f1, f3] at g
      exact g
  · have hstep : step K s Event.sequence_expiry = s := by simp [step, hp]
    rw [hstep]
    exact ⟨rfl, rfl, rfl, fun h => absurd h hp, fun h => absurd h hp⟩

/-- Witness for C18: after a first digit and a pulse at 3500 ms the sequence
timer and the digit timer are both queued; the sequence timer expires, and the
expiry of the digit timer then stores `'1'` at index 0. -/
theorem sequence_timer_independent_of_digit_witness :
    (run kernel_100 (init_state 20 (zero_mem 20))
      [Event.edge 100 10, Event.ticks_expiry 60, Event.edge 3500 350]).ticks_count = 1 ∧
    ∃ rest,
      stores (step kernel_100 (step kernel_100 (run kernel_100 (init_state 20 (zero_mem 20))
        [Event.edge 100 10, Event.ticks_expiry 60, Event.edge 3500 350])
          Event.sequence_expiry) (Event.ticks_expiry 400)).trace =
        stores (step kernel_100 (run kernel_100 (init_state 20 (zero_mem 20))
          [Event.edge 100 10, Event.ticks_expiry 60, Event.edge 3500 350])
            Event.sequence_expiry).trace ++ (0, 49) :: rest :=
  ⟨by decide,
   (sequence_timer_independent_of_digit kernel_100 (run kernel_100 (init_state 20 (zero_mem 20))
      [Event.edge 100 10, Event.ticks_expiry 60, Event.edge 3500 350]) 0 0).2.2.2.2.2
      (by decide) (by decide) (by decide) (by decide) 400⟩

/-- Every event extends the trace. -/
theorem step_trace_extends (K : Kernel) (s : State) (e : Event) :
    ∃ t, (step K s e).trace = s.trace ++ t := by
  cases e with
  | edge c j =>
    show ∃ t, (r_irq_handler K c j s).trace = s.trace ++ t
    unfold r_irq_handler
    cases hd : debounced s c
    · by_cases hc : s.ticks_count = 0
      · simp only [Bool.false_eq_true, if_false, hc, if_true]
        exact ⟨_, rfl⟩
      · simp only [Bool.false_eq_true, if_false, hc]
        exact ⟨_, rfl⟩
    · exact ⟨[], by simp⟩
  | ticks_expiry jf =>
    by_cases hp : s.ticks_timer.pending = true
    · rw [step_ticks_expiry_pending K jf s hp]
      unfold ticks_sequence_finished sequence_sequence_finished append_char store
      by_cases h1 : s.ticks_output_buffer_len < s.max_number_len
      · simp only [h1, if_true]
        split
        · simp only [List.append_assoc]
          exact ⟨_, rfl⟩
        · split
          · simp only [List.append_assoc]
            exact ⟨_, rfl⟩
          · simp only [List.append_assoc]
            exact ⟨_, rfl⟩
      · simp only [h1, if_false]
        split
        · simp only [List.append_assoc]
          exact ⟨_, rfl⟩
        · split
          · exact ⟨_, rfl⟩
          · exact ⟨_, rfl⟩
    · exact ⟨[], by simp [step, hp]⟩
  | sequence_expiry =>
    by_cases hp : s.sequence_timer.pending = true
    · simp only [step, hp, if_true, sequence_sequence_finished, append_char, store,
        List.append_assoc]
      exact ⟨_, rfl⟩
    · exact ⟨[], by simp [step, hp]⟩

/-- The number of wake-ups never decreases in a step. -/
theorem step_wakeups_mono (K : Kernel) (s : State) (e : Event) :
    wakeups s.trace ≤ wakeups (step K s e).trace := by
  obtain ⟨t, ht⟩ := step_trace_extends K s e
  rw [ht, wakeups_append]
  omega

/-- The number of wake-ups never decreases along a run. -/
theorem run_wakeups_mono (K : Kernel) (evs : List Event) :
    ∀ s : State, wakeups s.trace ≤ wakeups (run K s evs).trace := by
  induction evs with
  | nil => intro s; exact le_refl _
  | cons e evs ih =>
    intro s
    rw [run_cons]
    exact le_trans (step_wakeups_mono K s e) (ih _)

/-- A run of actions starts with its first action. -/
theorem sys_run_cons (K : Kernel) (beyond : List Nat) (y : Sys) (a : Action)
    (acts : List Action) :
    sys_run K beyond y (a :: acts) = sys_run K beyond (sys_step K beyond y a) acts := rfl

/-- A run of a concatenation of actions. -/
theorem sys_run_append (K : Kernel) (beyond : List Nat) (y : Sys) (a b : List Action) :
    sys_run K beyond y (a ++ b) = sys_run K beyond (sys_run K beyond y a) b := by
  simp [sys_run, List.foldl_append]

/-- While no publication takes place, the decoder events leave the reader as it
is and complete no read. -/
theorem sys_run_quiet (K : Kernel) (beyond : List Nat) (evs : List Event) :
    ∀ y : Sys, wakeups (run K y.state evs).trace = wakeups y.state.trace →
      sys_run K beyond y (decoder_actions evs) = { y with state := run K y.state evs } := by
  induction evs with
  | nil => intro y _; rfl
  | cons e evs ih =>
    intro y h
    rw [run_cons] at h
    have h1 := step_wakeups_mono K y.state e
    have h2 := run_wakeups_mono K evs (step K y.state e)
    have hq : wakeups (step K y.state e).trace = wakeups y.state.trace := by omega
    have hstep : sys_step K beyond y (Action.decoder e) =
        { y with state := step K y.state e } := by
      simp [sys_step, hq]
    show sys_run K beyond y (Action.decoder e :: decoder_actions evs) = _
    rw [sys_run_cons, hstep, ih _ (by simp only; omega)]
    simp [run_cons]

/-- C15 (as stated) fails.  A read issued after a publication that nobody read
does not return it: the reader sleeps through the following pulses and digit
and no read has completed.  A read issued before any publication returns when
a signal arrives, with the unterminated digit `"1"`. -/
theorem read_waits_counterexample :
    wakeups (sys_run kernel_100 []
      { state := init_state 20 (zero_mem 20), reader := none, returned := [] }
      (decoder_actions [Event.edge 100 10, Event.ticks_expiry 60,
        Event.sequence_expiry])).state.trace = 1 ∧
    (sys_run kernel_100 []
      { state := init_state 20 (zero_mem 20), reader := none, returned := [] }
      (decoder_actions [Event.edge 100 10, Event.ticks_expiry 60, Event.sequence_expiry] ++
        [Action.read_call 0] ++
        decoder_actions [Event.edge 5000 500, Event.ticks_expiry 550])).reader = some 0 ∧
    (sys_run kernel_100 []
      { state := init_state 20 (zero_mem 20), reader := none, returned := [] }
      (decoder_actions [Event.edge 100 10, Event.ticks_expiry 60, Event.sequence_expiry] ++
        [Action.read_call 0] ++
        decoder_actions [Event.edge 5000 500, Event.ticks_expiry 550])).returned = [] ∧
    ((sys_run kernel_100 []
      { state := init_state 20 (zero_mem 20), reader := none, returned := [] }
      ([Action.read_call 0] ++ decoder_actions [Event.edge 100 10, Event.ticks_expiry 60] ++
        [Action.signal])).returned.map (fun r => r.user)) = [[49]] ∧
    wakeups (sys_run kernel_100 []
      { state := init_state 20 (zero_mem 20), reader := none, returned := [] }
      ([Action.read_call 0] ++ decoder_actions [Event.edge 100 10, Event.ticks_expiry 60] ++
        [Action.signal])).state.trace = 0 := by
  decide

/-- C15 (amended): a read issued while no read is in progress sleeps, whatever
was published before the call, through every run of decoder events in which
no publication takes place, and completes no read meanwhile; it returns at
the first decoder event after the call that runs `wake_up_interruptible`, with
the result of `device_read` on the state that event leaves.  A signal
delivered to the sleeping reader makes the read return at once, on the
current state. -/
theorem read_returns_at_next_wakeup (K : Kernel) (beyond : List Nat) (y : Sys) (n : Nat)
    (evs : List Event) (e : Event)
    (hidle : y.reader = none)
    (hquiet : wakeups (run K y.state evs).trace = wakeups y.state.trace)
    (hpub : wakeups (step K (run K y.state evs) e).trace ≠
      wakeups (run K y.state evs).trace) :
    sys_run K beyond y (Action.read_call n :: decoder_actions evs) =
      { state := run K y.state evs, reader := some n, returned := y.returned } ∧
    sys_run K beyond y (Action.read_call n :: decoder_actions (evs ++ [e])) =
      { state := step K (run K y.state evs) e, reader := none,
        returned := y.returned ++
          [device_read K (step K (run K y.state evs) e) beyond n] } ∧
    sys_step K beyond { y with reader := some n } Action.signal =
      { state := y.state, reader := none,
        returned := y.returned ++ [device_read K y.state beyond n] } := by
  have hcall : sys_step K beyond y (Action.read_call n) = { y with reader := some n } := by
    simp [sys_step, hidle]
  have h1 : sys_run K beyond y (Action.read_call n :: decoder_actions evs) =
      { state := run K y.state evs, reader := some n, returned := y.returned } := by
    rw [sys_run_cons, hcall]
    exact sys_run_quiet K beyond evs { state := y.state, reader := some n, returned := y.returned } hquiet
  refine ⟨h1, ?_, rfl⟩
  have hsplit : Action.read_call n :: decoder_actions (evs ++ [e]) =
      (Action.read_call n :: decoder_actions evs) ++ [Action.decoder e] := by
    simp [decoder_actions]
  rw [hsplit, sys_run_append, h1]
  show sys_step K beyond _ (Action.decoder e) = _
  simp [sys_step, hpub]

/-- Witness for C15: a read issued after one publication, then a pulse and its
digit, then the expiry of the sequence timer, at which the read returns the
new sequence. -/
theorem read_returns_at_next_wakeup_witness :
    (sys_run kernel_100 []
      { state := run kernel_100 (init_state 20 (zero_mem 20))
          [Event.edge 100 10, Event.ticks_expiry 60, Event.sequence_expiry],
        reader := none, returned := [] }
      (Action.read_call 0 :: decoder_actions
        ([Event.edge 5000 500, Event.edge 5100 510, Event.ticks_expiry 560] ++
          [Event.sequence_expiry]))).returned.map (fun r => r.user) = [[50, 10]] :=
  have h := read_returns_at_next_wakeup kernel_100 []
    { state := run kernel_100 (init_state 20 (zero_mem 20))
        [Event.edge 100 10, Event.ticks_expiry 60, Event.sequence_expiry],
      reader := none, returned := [] } 0
    [Event.edge 5000 500, Event.edge 5100 510, Event.ticks_expiry 560] Event.sequence_expiry
    rfl (by decide) (by decide)
  by rw [h.2.1]; decide

/-- With `max_number_len ≤ 0` no digit is ever appended: the length stays 0 and
every store is the newline at index 0 or the NUL at index 1. -/
theorem step_nonpositive_inv (K : Kernel) (s : State) (e : Event)
    (hmax : s.max_number_len ≤ 0)
    (hlen : s.ticks_output_buffer_len = 0)
    (hst : ∀ p ∈ stores s.trace, 0 ≤ p.1 ∧ p.1 ≤ 1) :
    (step K s e).max_number_len = s.max_number_len ∧
    (step K s e).ticks_output_buffer_len = 0 ∧
    ∀ p ∈ stores (step K s e).trace, 0 ≤ p.1 ∧ p.1 ≤ 1 := by
  have hi1 : int_incr 0 = 1 := by decide
  cases e with
  | edge t j =>
    obtain ⟨-, g2, g3, -, g5⟩ := r_irq_handler_frame K t j s
    show (r_irq_handler K t j s).max_number_len = s.max_number_len ∧
      (r_irq_handler K t j s).ticks_output_buffer_len = 0 ∧
      ∀ p ∈ stores (r_irq_handler K t j s).trace, 0 ≤ p.1 ∧ p.1 ≤ 1
    rw [g2, g3, g5]
    exact ⟨rfl, hlen, hst⟩
  | ticks_expiry jf =>
    by_cases hp : s.ticks_timer.pending = true
    · have hlt0 : ¬ ((0 : Int) < s.max_number_len) := by omega
      have hge0 : (0 : Int) ≥ s.max_number_len := by omega
      simp only [step, hp, if_true, ticks_sequence_finished, hlen, hlt0, if_false, hge0,
        sequence_sequence_finished, append_char, store, hi1]
      refine ⟨trivial, trivial, ?_⟩
      intro p hp
      simp only [stores_append, stores, List.append_nil, List.mem_append, List.mem_singleton] at hp
      rcases hp with (hp | hp) | hp
      · exact hst p hp
      · subst hp; exact ⟨le_refl _, by decide⟩
      · subst hp; exact ⟨by decide, le_refl _⟩
    · have hstep : step K s (Event.ticks_expiry jf) = s := by simp [step, hp]
      rw [hstep]
      exact ⟨rfl, hlen, hst⟩
  | sequence_expiry =>
    by_cases hp : s.sequence_timer.pending = true
    · simp only [step, hp, if_true, sequence_sequence_finished, append_char, store, hlen, hi1]
      refine ⟨trivial, trivial, ?_⟩
      intro p hp
      simp only [stores_append, stores, List.append_nil, List.mem_append, List.mem_singleton] at hp
      rcases hp with (hp | hp) | hp
      · exact hst p hp
      · subst hp; exact ⟨le_refl _, by decide⟩
      · subst hp; exact ⟨by decide, le_refl _⟩
    · have hstep : step K s Event.sequence_expiry = s := by simp [step, hp]
      rw [hstep]
      exact ⟨rfl, hlen, hst⟩

/-- The invariant of `max_number_len ≤ 0` holds along every run. -/
theorem run_nonpositive_inv (K : Kernel) (evs : List Event) :
    ∀ s : State, s.max_number_len ≤ 0 → s.ticks_output_buffer_len = 0 →
      (∀ p ∈ stores s.trace, 0 ≤ p.1 ∧ p.1 ≤ 1) →
      ∀ p ∈ stores (run K s evs).trace, 0 ≤ p.1 ∧ p.1 ≤ 1 := by
  induction evs with
  | nil => intro s _ _ hst; exact hst
  | cons e evs ih =>
    intro s hmax hlen hst
    obtain ⟨a1, a2, a3⟩ := step_nonpositive_inv K s e hmax hlen hst
    rw [run_cons]
    exact ih (step K s e) (by rw [a1]; exact hmax) a2 a3

/-- For every value of `max_number_len` from -2 to 60 every store of every run
from the initial state lies inside the `max_number_len + 4` bytes allocated;
the value -3 is the only one with a block of at least one byte for
which this fails. -/
theorem stores_inside_block_from_minus_two (K : Kernel) (M : Int) (mem : List Nat)
    (evs : List Event) (hM0 : -2 ≤ M) (hM1 : M ≤ MAXIMUM_NUMBER_LEN) :
    ∀ p ∈ stores (run K (init_state M mem) evs).trace, 0 ≤ p.1 ∧ p.1 < M + 4 := by
  unfold MAXIMUM_NUMBER_LEN at hM1
  intro p hp
  by_cases hpos : 1 ≤ M
  · obtain ⟨-, -, -, -, b5⟩ := run_buffer_inv K M hpos (by unfold INT_MAX; omega) evs
      (init_state M mem) rfl (by simp [init_state]) (by simp [init_state]; omega)
      (by simp [init_state, stores])
    have := b5 p hp
    omega
  · have := run_nonpositive_inv K evs (init_state M mem) (by show M ≤ 0; omega) rfl
      (by simp [init_state, stores]) p hp
    omega

end Rotary
